import Mathlib

/-!
# udb: command protocol, store and snapshot persistence

A shallow embedding of `src/udb.c`.

* Memory read through a `char*` is a `List Char`; every `Char` stands for one
  byte.  Read as a C string it ends before its first NUL (`cstr`).
* The process-wide globals (`db_mem`, the cursor of `udb_scanner`) are passed
  explicitly: a handler takes the text the scanner has not read yet and the
  store, and returns the reply together with the new store.
* `udb.c` is written against GLib.  The GLib calls it makes (`GScanner` with
  the configuration of `udb_scanner_init`, `GHashTable` with string keys,
  `GKeyFile`) are modelled by the definitions of the sections named after
  them.
* `process_command_line` hands its line to the scanner with the length `-1`,
  which the scanner takes as 4294967295 bytes.  The argument `line` of the
  model is therefore the memory at that pointer, as far as the scanner may
  read: the bytes of the line, the NUL that ends it, and the bytes that lie
  behind the NUL.  A line `l` with the bytes `after` behind it is
  `l ++ NUL :: after`; a list of more than 4294967295 bytes stands for no
  text the scanner is given.
* C types are those of a 64-bit Linux: `gulong` and `long` have 64 bits.
* `config.h` is not part of the sources at hand, so the constants it defines
  (`UDB_MAX_KEY_LENGTH`, `UDB_DB_SECTION`) are fields of `Config`, as is the
  C library's rendering of a `double` by `printf ("%g")`.  What GLib's key
  files take from the process environment is a `KeyFileEnv`.
-/

namespace Udb

/-! ## Characters and C strings -/

/-- The NUL byte that ends a C string. -/
def NUL : Char := Char.ofNat 0

/-- The double quote, byte 34. -/
def DQUOTE : Char := Char.ofNat 34

/-- The single quote, byte 39. -/
def SQUOTE : Char := Char.ofNat 39

/-- The backslash, byte 92. -/
def BACKSLASH : Char := Char.ofNat 92

/-- Line feed, byte 10. -/
def LF : Char := Char.ofNat 10

/-- Carriage return, byte 13. -/
def CR : Char := Char.ofNat 13

/-- Horizontal tab, byte 9. -/
def TAB : Char := Char.ofNat 9

/-- A `char*` read as a C string: the bytes before the first NUL. -/
def cstr (s : List Char) : List Char := s.takeWhile (fun c => c != NUL)

/-- Decimal digits of a natural number, most significant first, given the
digits already produced for the less significant places. -/
def decimalAux : Nat → Nat → List Char → List Char
  | 0, n, acc => Char.ofNat (48 + n % 10) :: acc
  | fuel + 1, n, acc =>
    if n < 10 then Char.ofNat (48 + n) :: acc
    else decimalAux fuel (n / 10) (Char.ofNat (48 + n % 10) :: acc)

/-- What `printf` prints for a number that is not negative and has at most
21 digits, as the token codes and the 64-bit integers printed here have. -/
def decimal (n : Nat) : List Char := decimalAux 20 n []

/-- What `printf ("%ld")` prints for a `gulong` (64 bits) read back as a
`long`: values from `2^63` on are negative. -/
def printf_ld (v : Nat) : List Char :=
  if v % 2 ^ 64 < 2 ^ 63 then decimal (v % 2 ^ 64)
  else '-' :: decimal (2 ^ 64 - v % 2 ^ 64)

/-- The function `g_ascii_tolower`. -/
def g_ascii_tolower (c : Char) : Char :=
  if 65 ≤ c.toNat ∧ c.toNat ≤ 90 then Char.ofNat (c.toNat + 32) else c

/-- Whether `g_ascii_strcasecmp (a, b) == 0`. -/
def g_ascii_strcasecmp_eq (a b : List Char) : Bool :=
  a.map g_ascii_tolower == b.map g_ascii_tolower

/-! ## GScanner, as configured by `udb_scanner_init` -/

/-- The tokens `g_scanner_get_next_token` can return under the configuration
of `udb_scanner_init`, with the part of `scanner->value` that belongs to
them.  `numbers_2_int` turns binary, octal and hexadecimal numbers into
`G_TOKEN_INT`; `char_2_token`, `scan_symbols` and `scan_comment_multi` are
off, so no character token below 256, no symbol and no multi-line comment is
produced. -/
inductive GToken where
  | G_TOKEN_EOF
  | G_TOKEN_ERROR
  | G_TOKEN_CHAR (v_char : Char)
  | G_TOKEN_INT (v_int : Nat)
  | G_TOKEN_FLOAT (text : List Char)
  | G_TOKEN_STRING (v_string : List Char)
  | G_TOKEN_IDENTIFIER (v_identifier : List Char)
  | G_TOKEN_COMMENT_SINGLE (v_comment : List Char)
  deriving DecidableEq, Repr

/-- The numeric value of the token's `GTokenType`, what `%d` prints. -/
def GToken.code : GToken → Nat
  | .G_TOKEN_EOF => 0
  | .G_TOKEN_ERROR => 257
  | .G_TOKEN_CHAR _ => 258
  | .G_TOKEN_INT _ => 261
  | .G_TOKEN_FLOAT _ => 263
  | .G_TOKEN_STRING _ => 264
  | .G_TOKEN_IDENTIFIER _ => 266
  | .G_TOKEN_COMMENT_SINGLE _ => 268

/-- Membership in `cset_skip_characters`, which is `" \t\r\n"`. -/
def isSkipChar (c : Char) : Bool := c == ' ' || c == TAB || c == CR || c == LF

/-- The bytes `A` to `Z`. -/
def isUpperChar (c : Char) : Bool := 65 ≤ c.toNat && c.toNat ≤ 90

/-- The bytes `a` to `z`. -/
def isLowerChar (c : Char) : Bool := 97 ≤ c.toNat && c.toNat ≤ 122

/-- The bytes `0` to `9`. -/
def isDigitChar (c : Char) : Bool := 48 ≤ c.toNat && c.toNat ≤ 57

/-- Membership in `cset_identifier_first`: ASCII letters and `_`. -/
def isIdentifierFirst (c : Char) : Bool := isLowerChar c || isUpperChar c || c == '_'

/-- Membership in `cset_identifier_nth`: ASCII letters, digits and `_`. -/
def isIdentifierNth (c : Char) : Bool :=
  isLowerChar c || isUpperChar c || isDigitChar c || c == '_'

/-- An octal digit. -/
def isOctalDigit (c : Char) : Bool := 48 ≤ c.toNat && c.toNat ≤ 55

/-- The function `g_scanner_char_2_num`: the value of `c` as a digit in
`base`, `none` where the C function returns `-1`. -/
def g_scanner_char_2_num (c : Char) (base : Nat) : Option Nat :=
  let d : Option Nat :=
    if isDigitChar c then some (c.toNat - 48)
    else if isUpperChar c then some (c.toNat - 55)
    else if isLowerChar c then some (c.toNat - 87)
    else none
  d.filter (fun n => n < base)

/-- The byte `g_string_append_c` stores for an octal escape of value `i`. -/
def octalByte (i : Nat) : Char := Char.ofNat (i % 256)

/-- Puts a byte in front of the string a scanning loop returns. -/
def consResult (c : Char) : Option (List Char) × List Char → Option (List Char) × List Char
  | (none, rest) => (none, rest)
  | (some g, rest) => (some (c :: g), rest)

/-- The loop of `case '\''`: the bytes up to the closing quote and the text
after it.  The loop also ends at a NUL, which it has read, and at the end of
the text; the string is `none` then (`in_string_sq` stays set). -/
def scan_string_sq : List Char → Option (List Char) × List Char
  | [] => (none, [])
  | c :: rest =>
    if c = NUL then (none, rest)
    else if c = SQUOTE then (some [], rest)
    else consResult c (scan_string_sq rest)

/-- Where the loop of `case '"'` stands between two bytes: in plain text,
after a backslash, or inside an octal escape of which `n` digits (one or two)
of value `i` have been read. -/
inductive DqState where
  | plain
  | escape
  | octal (n : Nat) (i : Nat)
  deriving DecidableEq, Repr

/-- The loop of `case '"'`, one byte at a time: the bytes of the string,
escapes replaced, and the text after the closing quote.  The loop also ends
at a NUL that no backslash precedes, which it has read, and at the end of the
text; the string is `none` then (`in_string_dq` stays set).  A NUL after a
backslash is dropped (`case 0: break;`) and the loop goes on behind it.  An
octal escape takes up to three octal digits; the byte after a shorter one is
read as plain text. -/
def scan_string_dq_from : DqState → List Char → Option (List Char) × List Char
  | _, [] => (none, [])
  | st, c :: rest =>
    let plain : Option (List Char) × List Char :=
      if c = NUL then (none, rest)
      else if c = DQUOTE then (some [], rest)
      else if c = BACKSLASH then scan_string_dq_from DqState.escape rest
      else consResult c (scan_string_dq_from DqState.plain rest)
    match st with
    | DqState.plain => plain
    | DqState.escape =>
      if c = NUL then scan_string_dq_from DqState.plain rest
      else if c = BACKSLASH then consResult BACKSLASH (scan_string_dq_from DqState.plain rest)
      else if c = 'n' then consResult LF (scan_string_dq_from DqState.plain rest)
      else if c = 't' then consResult TAB (scan_string_dq_from DqState.plain rest)
      else if c = 'r' then consResult CR (scan_string_dq_from DqState.plain rest)
      else if c = 'b' then consResult (Char.ofNat 8) (scan_string_dq_from DqState.plain rest)
      else if c = 'f' then consResult (Char.ofNat 12) (scan_string_dq_from DqState.plain rest)
      else if isOctalDigit c then scan_string_dq_from (DqState.octal 1 (c.toNat - 48)) rest
      else consResult c (scan_string_dq_from DqState.plain rest)
    | DqState.octal n i =>
      if isOctalDigit c then
        if n = 1 then scan_string_dq_from (DqState.octal 2 (i * 8 + (c.toNat - 48))) rest
        else
          consResult (octalByte (i * 8 + (c.toNat - 48)))
            (scan_string_dq_from DqState.plain rest)
      else consResult (octalByte i) plain

/-- The loop of `case '"'` from the byte after the opening quote. -/
def scan_string_dq (text : List Char) : Option (List Char) × List Char :=
  scan_string_dq_from DqState.plain text

/-- The token types the number branch of the scanner moves between. -/
inductive NumType where
  | BINARY
  | OCTAL
  | INT
  | HEX
  | FLOAT
  | ERROR
  deriving DecidableEq, Repr

/-- The `do ... while (in_number)` loop of `number_parsing`.  `tok` is the
token type so far, `ch` the byte read last, `g` the string collected; the
result is the token type, the string and the text not read. -/
def number_loop : NumType → Char → List Char → List Char → NumType × List Char × List Char
  | tok, _, g, [] => (tok, g, [])
  | tok, ch, g, c :: rest =>
    let is_E := tok = NumType.FLOAT ∧ (ch = 'e' ∨ ch = 'E')
    if (g_scanner_char_2_num c 36).isSome ∨ c = '.' ∨ (is_E ∧ (c = '+' ∨ c = '-')) then
      if c = '.' then
        if tok ≠ NumType.INT ∧ tok ≠ NumType.OCTAL then (NumType.ERROR, g, rest)
        else number_loop NumType.FLOAT c (g ++ [c]) rest
      else if isDigitChar c then number_loop tok c (g ++ [c]) rest
      else if c = '-' ∨ c = '+' then
        if tok ≠ NumType.FLOAT then (NumType.ERROR, g, rest)
        else number_loop tok c (g ++ [c]) rest
      else if c = 'e' ∨ c = 'E' then
        if tok = NumType.BINARY ∨ tok = NumType.ERROR then (NumType.ERROR, g, rest)
        else number_loop (if tok = NumType.HEX then NumType.HEX else NumType.FLOAT) c (g ++ [c]) rest
      else if tok ≠ NumType.HEX then (NumType.ERROR, g, rest)
      else number_loop tok c (g ++ [c]) rest
    else (tok, g, c :: rest)

/-- The digit loop of `g_ascii_strtoull` (`g_parse_long_long`): the value
read so far, whether it overflowed 64 bits, and the text it stops at. -/
def strtoull_loop (base : Nat) : Nat → Bool → List Char → Nat × Bool × List Char
  | ui64, overflow, [] => (ui64, overflow, [])
  | ui64, overflow, c :: rest =>
    match g_scanner_char_2_num c base with
    | none => (ui64, overflow, c :: rest)
    | some d =>
      if ui64 > (2 ^ 64 - 1) / base ∨ (ui64 = (2 ^ 64 - 1) / base ∧ d > (2 ^ 64 - 1) % base) then
        strtoull_loop base ui64 true rest
      else strtoull_loop base (ui64 * base + d) overflow rest

/-- The function `g_ascii_strtoull` on a string that starts with neither
white space nor a sign (the scanner's strings start with a digit): the value
and what `endptr` points at.  Where nothing is converted `endptr` is left on
a byte of the string, so the rest returned is not empty. -/
def g_ascii_strtoull (s : List Char) (base : Nat) : Nat × List Char :=
  let body : List Char :=
    match s with
    | z :: x :: t => if z = '0' ∧ base = 16 ∧ (x = 'x' ∨ x = 'X') then t else s
    | _ => s
  match strtoull_loop base 0 false body with
  | (ui64, overflow, rest) =>
    if rest.length = body.length then (0, if s = [] then [] else s)
    else (if overflow then 2 ^ 64 - 1 else ui64, rest)

/-- What `endptr` points at after `strtod` read a decimal floating-point
number from a string that starts with a digit: digits, an optional point and
more digits, and an exponent when at least one digit follows `e`. -/
def strtod_rest (s : List Char) : List Char :=
  let s1 := s.dropWhile isDigitChar
  let s2 :=
    match s1 with
    | p :: t => if p = '.' then t.dropWhile isDigitChar else s1
    | [] => s1
  match s2 with
  | e :: t =>
    if e = 'e' ∨ e = 'E' then
      let t1 :=
        match t with
        | sg :: u => if sg = '+' ∨ sg = '-' then u else t
        | [] => t
      match t1 with
      | d :: _ => if isDigitChar d then t1.dropWhile isDigitChar else s2
      | [] => s2
    else s2
  | [] => []

/-- The end of `number_parsing`: the string `g` collected for a number of
type `tok` is converted (`g_strtod`, or `g_ascii_strtoull` in the base of the
token type), and the token becomes `G_TOKEN_ERROR` when the conversion stops
before the string's end.  `numbers_2_int` then makes every integer a
`G_TOKEN_INT`. -/
def number_convert (tok : NumType) (g : List Char) : GToken :=
  match tok with
  | NumType.ERROR => GToken.G_TOKEN_ERROR
  | NumType.FLOAT => if strtod_rest g = [] then GToken.G_TOKEN_FLOAT g else GToken.G_TOKEN_ERROR
  | NumType.BINARY =>
    if (g_ascii_strtoull g 2).2 = [] then GToken.G_TOKEN_INT (g_ascii_strtoull g 2).1
    else GToken.G_TOKEN_ERROR
  | NumType.OCTAL =>
    if (g_ascii_strtoull g 8).2 = [] then GToken.G_TOKEN_INT (g_ascii_strtoull g 8).1
    else GToken.G_TOKEN_ERROR
  | NumType.INT =>
    if (g_ascii_strtoull g 10).2 = [] then GToken.G_TOKEN_INT (g_ascii_strtoull g 10).1
    else GToken.G_TOKEN_ERROR
  | NumType.HEX =>
    if (g_ascii_strtoull g 16).2 = [] then GToken.G_TOKEN_INT (g_ascii_strtoull g 16).1
    else GToken.G_TOKEN_ERROR

/-- The part of the scanner after `number_parsing:`, entered with the token
type `tok`, the first byte `ch` of the number and the text after it; `dotted`
is `dotted_float`.  The string starts with `"0."` for a dotted float, then
holds `ch` and what the loop collects. -/
def number_parsing (dotted : Bool) (tok : NumType) (ch : Char) (text : List Char) :
    GToken × List Char :=
  match number_loop tok ch ((if dotted then ['0', '.'] else []) ++ [ch]) text with
  | (t, g, rest) => (number_convert t (cstr g), rest)

/-- The function `g_scanner_get_token_ll` on the text not read yet: the next
raw token and the text after it.  Reading at the end of the text yields 0,
and so does reading a NUL, which is one byte of the text: the text goes on
behind it.  Token values are C strings (`cstr`).

At `identifier_precedence:` the byte after the first one decides with
`strchr (cset_identifier_nth, ...)`, which also finds a NUL (the terminator
of the set): an identifier of one byte that a NUL follows takes the NUL and
the bytes of `cset_identifier_nth` behind it into its string, whose value as
a C string is still that one byte. -/
def g_scanner_get_token_ll : List Char → GToken × List Char
  | [] => (GToken.G_TOKEN_EOF, [])
  | ch :: rest =>
    if isIdentifierFirst ch then
      match rest with
      | [] => (GToken.G_TOKEN_IDENTIFIER [ch], [])
      | c :: rest1 =>
        if c = NUL then
          (GToken.G_TOKEN_IDENTIFIER (cstr (ch :: c :: rest1.takeWhile isIdentifierNth)),
            rest1.dropWhile isIdentifierNth)
        else
          -- the loop, or `scan_identifier_1char` when `c` ends the identifier
          (GToken.G_TOKEN_IDENTIFIER (ch :: (c :: rest1).takeWhile isIdentifierNth),
            (c :: rest1).dropWhile isIdentifierNth)
    else if ch = NUL then (GToken.G_TOKEN_EOF, rest)
    else if ch = SQUOTE then
      match scan_string_sq rest with
      | (some g, rest1) => (GToken.G_TOKEN_STRING (cstr g), rest1)
      | (none, rest1) => (GToken.G_TOKEN_ERROR, rest1)
    else if ch = DQUOTE then
      match scan_string_dq rest with
      | (some g, rest1) => (GToken.G_TOKEN_STRING (cstr g), rest1)
      | (none, rest1) => (GToken.G_TOKEN_ERROR, rest1)
    else if ch = '0' then
      match rest with
      | [] => number_parsing false NumType.OCTAL '0' rest
      | x :: rest1 =>
        if x = 'x' ∨ x = 'X' then
          match rest1 with
          | [] => (GToken.G_TOKEN_ERROR, [])
          | d :: rest2 =>
            if (g_scanner_char_2_num d 16).isNone then (GToken.G_TOKEN_ERROR, rest2)
            else number_parsing false NumType.HEX d rest2
        else if x = 'b' ∨ x = 'B' then
          match rest1 with
          | [] => (GToken.G_TOKEN_ERROR, [])
          | d :: rest2 =>
            if (g_scanner_char_2_num d 10).isNone then (GToken.G_TOKEN_ERROR, rest2)
            else number_parsing false NumType.BINARY d rest2
        else number_parsing false NumType.OCTAL '0' rest
    else if isDigitChar ch then number_parsing false NumType.INT ch rest
    else if ch = '.' then
      match rest with
      | [] => number_parsing true NumType.FLOAT NUL []
      | c :: rest1 => number_parsing true NumType.FLOAT c rest1
    else if ch = '#' then
      -- the comment runs to a line feed or a NUL, which is read as well
      (GToken.G_TOKEN_COMMENT_SINGLE (rest.takeWhile (fun c => c != LF && c != NUL)),
        (rest.dropWhile (fun c => c != LF && c != NUL)).drop 1)
    else (GToken.G_TOKEN_CHAR ch, rest)

/-- The function `g_scanner_get_next_token`: `g_scanner_get_token_i` calls
`g_scanner_get_token_ll` again while the token is a `G_TOKEN_CHAR` of
`cset_skip_characters`; the scanner gives such a token exactly for a skip
byte (`g_scanner_get_token_ll_skip`), which is how the loop is written here.
Returns the token and the text not read yet. -/
def g_scanner_get_next_token : List Char → GToken × List Char
  | [] => (GToken.G_TOKEN_EOF, [])
  | c :: rest =>
    if isSkipChar c then g_scanner_get_next_token rest
    else g_scanner_get_token_ll (c :: rest)

/-- The function `g_scanner_input_text (udb_scanner, line, -1)`.  The length
is a `guint`, so the `-1` of the call is 4294967295: the scanner's text does
not end at the NUL that ends the C string `line`, it goes on through the
memory behind it.  `line` stands for that text: the bytes in memory from the
pointer `line` on, as far as the scanner may read, with the terminating NUL
and the bytes behind it. -/
def g_scanner_input_text (line : List Char) : List Char := line

/-! ## Configuration -/

/-- What `udb.c` takes from outside its own text: the constants of
`config.h` and the C library's `printf ("%g", g_strtod (text))`, the
rendering of the `double` nearest to the decimal number `text`. -/
structure Config where
  UDB_MAX_KEY_LENGTH : Nat
  UDB_DB_SECTION : List Char
  printf_g : List Char → List Char

/-! ## The store: `db_mem`, a `GHashTable` from strings to strings -/

/-- The contents of `db_mem`.  The order of the list stands for the order in
which `g_hash_table_iter_next` visits the entries, which GLib leaves open. -/
abbrev Store := List (List Char × List Char)

/-- The function `db_lookup` (`g_hash_table_lookup`): the value stored under
`key`, `none` for `NULL`. -/
def db_lookup : Store → List Char → Option (List Char)
  | [], _ => none
  | (k, v) :: rest, key => if k = key then some v else db_lookup rest key

/-- The entries of the store under keys other than `key`. -/
def db_without (db : Store) (key : List Char) : Store :=
  db.filter (fun p => p.1 != key)

/-- The function `db_remove` (`g_hash_table_remove`): whether the key was
there, and the store without it. -/
def db_remove (db : Store) (key : List Char) : Bool × Store :=
  ((db_lookup db key).isSome, db_without db key)

/-- The function `db_insert` (`g_hash_table_insert`): whether the key was
new, and the store in which `key` maps to `value` and to nothing else. -/
def db_insert (db : Store) (key value : List Char) : Bool × Store :=
  ((db_lookup db key).isNone, (key, value) :: db_without db key)

/-! ## Command handlers -/

/-- The reply `"OK\r\n"`. -/
def REPLY_OK : List Char := "OK\r\n".toList

/-- The reply `"NULL\r\n"`. -/
def REPLY_NULL : List Char := "NULL\r\n".toList

/-- The reply `"ERR Missing KEY (token=%d)\r\n"`. -/
def reply_missing_key (tok : GToken) : List Char :=
  "ERR Missing KEY (token=".toList ++ decimal tok.code ++ ")\r\n".toList

/-- The function `udb_handle_get`, run on the text the scanner has not read
yet: the reply and the store (which it only reads). -/
def udb_handle_get (_cfg : Config) (text : List Char) (db : Store) : List Char × Store :=
  match g_scanner_get_next_token text with
  | (GToken.G_TOKEN_IDENTIFIER key, _) =>
    match db_lookup db key with
    | none => (REPLY_NULL, db)
    | some result => (result ++ "\r\n".toList, db)
  | (GToken.G_TOKEN_STRING key, _) =>
    match db_lookup db key with
    | none => (REPLY_NULL, db)
    | some result => (result ++ "\r\n".toList, db)
  | (varname_token, _) => (reply_missing_key varname_token, db)

/-- The second half of `udb_handle_set`, from the length check on: `key` is
the key read, `text` what follows it.  (`value` is never `NULL`, so the
`ERR NULL Value` branch is not reached.) -/
def udb_handle_set_value (cfg : Config) (key : List Char) (text : List Char) (db : Store) :
    List Char × Store :=
  if key.length > cfg.UDB_MAX_KEY_LENGTH then ("ERR Key To Long\r\n".toList, db)
  else
    match g_scanner_get_next_token text with
    | (GToken.G_TOKEN_IDENTIFIER v, _) => (REPLY_OK, (db_insert db key v).2)
    | (GToken.G_TOKEN_INT v, _) => (REPLY_OK, (db_insert db key (printf_ld v)).2)
    | (GToken.G_TOKEN_FLOAT t, _) => (REPLY_OK, (db_insert db key (cfg.printf_g t)).2)
    | (GToken.G_TOKEN_STRING v, _) => (REPLY_OK, (db_insert db key v).2)
    | (GToken.G_TOKEN_EOF, _) => ("ERR Missing Value Argument\r\n".toList, db)
    | (tB, _) =>
      ("ERR Malformed Value Argument (token=".toList ++ decimal tB.code ++ ")\r\n".toList, db)

/-- The function `udb_handle_set`. -/
def udb_handle_set (cfg : Config) (text : List Char) (db : Store) : List Char × Store :=
  match g_scanner_get_next_token text with
  | (GToken.G_TOKEN_IDENTIFIER key, text1) => udb_handle_set_value cfg key text1 db
  | (GToken.G_TOKEN_STRING key, text1) => udb_handle_set_value cfg key text1 db
  | (tA, _) => (reply_missing_key tA, db)

/-- The function `udb_handle_del`; the result of `db_remove` is dropped. -/
def udb_handle_del (_cfg : Config) (text : List Char) (db : Store) : List Char × Store :=
  match g_scanner_get_next_token text with
  | (GToken.G_TOKEN_IDENTIFIER key, _) => (REPLY_OK, (db_remove db key).2)
  | (GToken.G_TOKEN_STRING key, _) => (REPLY_OK, (db_remove db key).2)
  | (varname_token, _) => (reply_missing_key varname_token, db)

/-- A handler of the dispatch table: it reads its arguments from the text
left in the scanner and returns the reply and the new store. -/
abbrev UDB_Handler := Config → List Char → Store → List Char × Store

/-- The table `udb_commands`, up to its terminating entry. -/
def udb_commands : List (List Char × UDB_Handler) :=
  [("GET".toList, udb_handle_get), ("SET".toList, udb_handle_set),
    ("DEL".toList, udb_handle_del)]

/-- The function `process_command_line`: the reply to one line and the store
after it.  `line` is the memory at the pointer the function is given (see
`g_scanner_input_text`). -/
def process_command_line (cfg : Config) (db : Store) (line : List Char) : List Char × Store :=
  match g_scanner_get_next_token (g_scanner_input_text line) with
  | (GToken.G_TOKEN_IDENTIFIER cmd, text) =>
    match udb_commands.find? (fun e => g_ascii_strcasecmp_eq cmd e.1) with
    | some e => e.2 cfg text db
    | none => ("ERR Unknown command: ".toList ++ cmd ++ "\r\n".toList, db)
  | (tok, _) =>
    ("ERR Expected Command Identifier (got token=".toList ++ decimal tok.code
      ++ ")\r\n".toList, db)

/-! ## GKeyFile, as `db_save_to_file` and `db_load_from_file` use it

A snapshot is a text file: it is taken to hold no NUL byte. -/

/-- The function `g_ascii_isspace`: blank, tab, line feed, carriage return
and form feed (12); not the vertical tab. -/
def g_ascii_isspace (c : Char) : Bool :=
  c == ' ' || c == TAB || c == LF || c == CR || c == Char.ofNat 12

/-- The function `g_ascii_iscntrl`: the bytes below 32 and the byte 127. -/
def g_ascii_iscntrl (c : Char) : Bool := c.toNat < 32 || c.toNat == 127

/-- A continuation byte of UTF-8: `10xxxxxx`. -/
def isContinuationByte (c : Char) : Bool := 128 ≤ c.toNat && c.toNat ≤ 191

/-- Whether `b`, `c1` start a two-byte UTF-8 character. -/
def utf8_two (b c1 : Char) : Bool := 194 ≤ b.toNat && b.toNat ≤ 223 && isContinuationByte c1

/-- Whether `b`, `c1`, `c2` are a three-byte UTF-8 character: not overlong
and no surrogate. -/
def utf8_three (b c1 c2 : Char) : Bool :=
  224 ≤ b.toNat && b.toNat ≤ 239 && isContinuationByte c1 && isContinuationByte c2
    && (b.toNat != 224 || 160 ≤ c1.toNat) && (b.toNat != 237 || c1.toNat ≤ 159)

/-- Whether `b`, `c1`, `c2`, `c3` are a four-byte UTF-8 character: not
overlong and at most U+10FFFF. -/
def utf8_four (b c1 c2 c3 : Char) : Bool :=
  240 ≤ b.toNat && b.toNat ≤ 244 && isContinuationByte c1 && isContinuationByte c2
    && isContinuationByte c3
    && (b.toNat != 240 || 144 ≤ c1.toNat) && (b.toNat != 244 || c1.toNat ≤ 143)

/-- The function `g_utf8_validate (str, -1, NULL)` on a C string. -/
def g_utf8_validate : List Char → Bool
  | [] => true
  | b :: rest =>
    if b.toNat < 128 then g_utf8_validate rest
    else
      match rest with
      | [] => false
      | c1 :: rest1 =>
        if utf8_two b c1 then g_utf8_validate rest1
        else
          match rest1 with
          | [] => false
          | c2 :: rest2 =>
            if utf8_three b c1 c2 then g_utf8_validate rest2
            else
              match rest2 with
              | [] => false
              | c3 :: rest3 => if utf8_four b c1 c2 c3 then g_utf8_validate rest3 else false

/-- The environment of GLib's key files: the language names
`g_get_language_names` returns, and `locale_suffix_ok`, which says of the
bytes after the `[` of a key name whether they are a run of locale
characters (alphanumeric Unicode characters, `-`, `_`, `.`, `@`) followed by
`]` and the end of the name. -/
structure KeyFileEnv where
  language_names : List (List Char)
  locale_suffix_ok : List Char → Bool

/-- The function `g_key_file_is_group_name`: not empty, and no `[`, no `]`
and no control character in it. -/
def g_key_file_is_group_name (name : List Char) : Bool :=
  name != [] && name.all (fun c => c != ']' && c != '[' && !g_ascii_iscntrl c)

/-- A byte at which the first loop of `g_key_file_is_key_name` goes on. -/
def isKeyNameByte (c : Char) : Bool := c != '=' && c != '[' && c != ']'

/-- The function `g_key_file_is_key_name`: a run of bytes other than `=`,
`[`, `]` that is not empty and neither starts nor ends with a blank,
followed by nothing or by a locale in brackets. -/
def g_key_file_is_key_name (env : KeyFileEnv) (name : List Char) : Bool :=
  let body := name.takeWhile isKeyNameByte
  if body = [] then false
  else if body.head? = some ' ' || body.getLast? = some ' ' then false
  else
    match name.dropWhile isKeyNameByte with
    | [] => true
    | c :: suffix => if c = '[' then env.locale_suffix_ok suffix else false

/-- The function `g_key_file_parse_string_as_value` without a list
separator: how `g_key_file_set_string` escapes a string.  `lead` is
`parsing_leading_space`. -/
def g_key_file_parse_string_as_value : Bool → List Char → List Char
  | _, [] => []
  | lead, c :: rest =>
    if c = ' ' then
      if lead then BACKSLASH :: 's' :: g_key_file_parse_string_as_value lead rest
      else ' ' :: g_key_file_parse_string_as_value lead rest
    else if c = TAB then
      if lead then BACKSLASH :: 't' :: g_key_file_parse_string_as_value lead rest
      else TAB :: g_key_file_parse_string_as_value lead rest
    else if c = LF then BACKSLASH :: 'n' :: g_key_file_parse_string_as_value lead rest
    else if c = CR then BACKSLASH :: 'r' :: g_key_file_parse_string_as_value lead rest
    else if c = BACKSLASH then
      BACKSLASH :: BACKSLASH :: g_key_file_parse_string_as_value false rest
    else c :: g_key_file_parse_string_as_value false rest

/-- The function `g_key_file_parse_value_as_string` without a list: how
`g_key_file_get_string` reads a raw value.  An unknown escape is kept as it
is and a backslash at the end is dropped; the errors GLib reports for them
do not reach `db_load_from_file`, which passes no error location. -/
def g_key_file_parse_value_as_string : List Char → List Char
  | [] => []
  | c :: rest =>
    if c = BACKSLASH then
      match rest with
      | [] => []
      | e :: rest1 =>
        if e = 's' then ' ' :: g_key_file_parse_value_as_string rest1
        else if e = 'n' then LF :: g_key_file_parse_value_as_string rest1
        else if e = 't' then TAB :: g_key_file_parse_value_as_string rest1
        else if e = 'r' then CR :: g_key_file_parse_value_as_string rest1
        else if e = BACKSLASH then BACKSLASH :: g_key_file_parse_value_as_string rest1
        else BACKSLASH :: e :: g_key_file_parse_value_as_string rest1
    else c :: g_key_file_parse_value_as_string rest

/-- The key-value pairs of one group of a key file, in the order of the
file: key and raw (escaped) value. -/
abbrev KeyValuePairs := List (List Char × List Char)

/-- The function `g_key_file_set_string` on the one group `db_save_to_file`
writes to.  A group or key name GLib does not accept fails the
`g_return_if_fail` of `g_key_file_set_value` and nothing is set; the value
of a key that is there is replaced, a new key is added at the end. -/
def g_key_file_set_string (env : KeyFileEnv) (group_name : List Char) (pairs : KeyValuePairs)
    (key string : List Char) : KeyValuePairs :=
  if g_key_file_is_group_name group_name && g_key_file_is_key_name env key then
    if pairs.any (fun p => p.1 == key) then
      pairs.map (fun p =>
        if p.1 == key then (key, g_key_file_parse_string_as_value true string) else p)
    else pairs ++ [(key, g_key_file_parse_string_as_value true string)]
  else pairs

/-- The function `g_key_file_to_data` for a key file whose only group is
`group_name` with the given pairs; the group exists once a pair was set. -/
def g_key_file_to_data (group_name : List Char) (pairs : KeyValuePairs) : List Char :=
  if pairs = [] then []
  else
    '[' :: group_name ++ [']', LF]
      ++ (pairs.map (fun p => p.1 ++ '=' :: p.2 ++ [LF])).flatten

/-- The error domains `db_load_from_file` can report. -/
inductive GErrorDomain where
  | G_FILE_ERROR
  | G_KEY_FILE_ERROR
  deriving DecidableEq, Repr

/-- A `GError`: domain and code. -/
structure GError where
  domain : GErrorDomain
  code : Nat
  deriving DecidableEq, Repr

/-- The code `G_FILE_ERROR_NOENT`. -/
def G_FILE_ERROR_NOENT : Nat := 4

/-- The code `G_KEY_FILE_ERROR_UNKNOWN_ENCODING`. -/
def G_KEY_FILE_ERROR_UNKNOWN_ENCODING : Nat := 0

/-- The code `G_KEY_FILE_ERROR_PARSE`. -/
def G_KEY_FILE_ERROR_PARSE : Nat := 1

/-- The code `G_KEY_FILE_ERROR_GROUP_NOT_FOUND`. -/
def G_KEY_FILE_ERROR_GROUP_NOT_FOUND : Nat := 4

/-- A key file while it is parsed: the named groups in the order of their
first line, each with its pairs in the order of the file, and the name of
the current group (`none` before the first group line). -/
structure GKeyFile where
  groups : List (List Char × KeyValuePairs)
  current_group : Option (List Char)
  deriving DecidableEq, Repr

/-- The function `g_key_file_line_is_group`: `[`, a name up to the first
`]`, then only blanks, tabs and the continuation bytes that
`g_utf8_find_next_char` steps over. -/
def g_key_file_line_is_group (line : List Char) : Bool :=
  match line with
  | [] => false
  | c :: rest =>
    if c = '[' then
      match rest.dropWhile (fun x => x != ']') with
      | [] => false
      | _ :: tail => tail.all (fun x => x == ' ' || x == TAB || isContinuationByte x)
    else false

/-- The function `g_key_file_line_is_key_value_pair`: the line holds a `=`
and does not start with it. -/
def g_key_file_line_is_key_value_pair (line : List Char) : Bool :=
  line.contains '=' && line.head? != some '='

/-- The function `g_key_file_add_group` for a group read from a file: the
group becomes the current one, and is created when it is not there. -/
def g_key_file_add_group (kf : GKeyFile) (name : List Char) : GKeyFile :=
  if kf.groups.any (fun g => g.1 == name) then ⟨kf.groups, some name⟩
  else ⟨kf.groups ++ [(name, [])], some name⟩

/-- The function `g_key_file_add_key_value_pair`: the pair is added to the
group at the end of its pairs. -/
def g_key_file_add_key_value_pair (kf : GKeyFile) (group key value : List Char) : GKeyFile :=
  ⟨kf.groups.map (fun g => if g.1 == group then (g.1, g.2 ++ [(key, value)]) else g),
    kf.current_group⟩

/-- The function `g_key_file_parse_group` on a line that is a group line:
the name stands between the `[` and the `]`. -/
def g_key_file_parse_group (kf : GKeyFile) (line : List Char) : Except GError GKeyFile :=
  let group_name := (line.drop 1).takeWhile (fun x => x != ']')
  if g_key_file_is_group_name group_name then Except.ok (g_key_file_add_group kf group_name)
  else Except.error ⟨GErrorDomain.G_KEY_FILE_ERROR, G_KEY_FILE_ERROR_PARSE⟩

/-- The function `key_get_locale`: the text between the last `[` of the key
and its last byte, when that bracket holds at least one byte. -/
def key_get_locale (key : List Char) : Option (List Char) :=
  if key.contains '[' then
    let after := (key.reverse.takeWhile (fun x => x != '[')).reverse
    if after.length + 1 > 2 then some after.dropLast else none
  else none

/-- The function `g_key_file_locale_is_interesting` without
`G_KEY_FILE_KEEP_TRANSLATIONS`: the locale is one of the language names,
case apart. -/
def g_key_file_locale_is_interesting (env : KeyFileEnv) (locale : List Char) : Bool :=
  env.language_names.any (fun l => g_ascii_strcasecmp_eq l locale)

/-- The function `g_key_file_parse_key_value_pair` on a line that holds a
`=` and starts with neither `=` nor white space.  The key is what stands
before the first `=` without the white space at its end, the raw value what
stands after it without the white space at its start. -/
def g_key_file_parse_key_value_pair (env : KeyFileEnv) (kf : GKeyFile) (line : List Char) :
    Except GError GKeyFile :=
  match kf.current_group with
  | none => Except.error ⟨GErrorDomain.G_KEY_FILE_ERROR, G_KEY_FILE_ERROR_GROUP_NOT_FOUND⟩
  | some group =>
    let key := (line.takeWhile (fun x => x != '=')).rdropWhile g_ascii_isspace
    let value := ((line.dropWhile (fun x => x != '=')).drop 1).dropWhile g_ascii_isspace
    if !g_key_file_is_key_name env key then
      Except.error ⟨GErrorDomain.G_KEY_FILE_ERROR, G_KEY_FILE_ERROR_PARSE⟩
    else if kf.groups.head?.map Prod.fst == some group && key == "Encoding".toList
        && !g_ascii_strcasecmp_eq value "UTF-8".toList then
      Except.error ⟨GErrorDomain.G_KEY_FILE_ERROR, G_KEY_FILE_ERROR_UNKNOWN_ENCODING⟩
    else
      match key_get_locale key with
      | none => Except.ok (g_key_file_add_key_value_pair kf group key value)
      | some locale =>
        if g_key_file_locale_is_interesting env locale then
          Except.ok (g_key_file_add_key_value_pair kf group key value)
        else Except.ok kf

/-- The function `g_key_file_parse_line` without `G_KEY_FILE_KEEP_COMMENTS`:
after the white space at its start a line is a comment (dropped), a group
line, a key-value pair, or a parse error. -/
def g_key_file_parse_line (env : KeyFileEnv) (kf : GKeyFile) (line : List Char) :
    Except GError GKeyFile :=
  let line_start := line.dropWhile g_ascii_isspace
  if line_start = [] || line_start.head? == some '#' then Except.ok kf
  else if g_key_file_line_is_group line_start then g_key_file_parse_group kf line_start
  else if g_key_file_line_is_key_value_pair line_start then
    g_key_file_parse_key_value_pair env kf line_start
  else Except.error ⟨GErrorDomain.G_KEY_FILE_ERROR, G_KEY_FILE_ERROR_PARSE⟩

/-- The functions `g_key_file_parse_data` and `g_key_file_flush_parse_buffer`
over the bytes of the file: `buffer` is the parse buffer, the bytes of the
line being read.  At a line feed a carriage return at the end of the buffer
is removed and the line parsed, an empty one as a comment; what is left in
the buffer at the end of the file is parsed as the last line. -/
def g_key_file_parse_data (env : KeyFileEnv) :
    GKeyFile → List Char → List Char → Except GError GKeyFile
  | kf, buffer, [] => if buffer = [] then Except.ok kf else g_key_file_parse_line env kf buffer
  | kf, buffer, c :: rest =>
    if c = LF then
      let line := if buffer.getLast? = some CR then buffer.dropLast else buffer
      if line = [] then g_key_file_parse_data env kf [] rest
      else
        match g_key_file_parse_line env kf line with
        | Except.ok kf1 => g_key_file_parse_data env kf1 [] rest
        | Except.error e => Except.error e
    else g_key_file_parse_data env kf (buffer ++ [c]) rest

/-- What `g_key_file_load_from_file` finds at `db_file_path`: a failure of
`open` or `read` with its `GFileError` code (`G_FILE_ERROR_NOENT` when there
is no such file), something that is no regular file, or the bytes of a
regular file. -/
inductive SnapshotFile where
  | io_error (code : Nat)
  | not_regular
  | regular (data : List Char)
  deriving DecidableEq, Repr

/-- The function `g_key_file_load_from_file` with `G_KEY_FILE_NONE`. -/
def g_key_file_load_from_file (env : KeyFileEnv) (file : SnapshotFile) :
    Except GError GKeyFile :=
  match file with
  | SnapshotFile.io_error code => Except.error ⟨GErrorDomain.G_FILE_ERROR, code⟩
  | SnapshotFile.not_regular =>
    Except.error ⟨GErrorDomain.G_KEY_FILE_ERROR, G_KEY_FILE_ERROR_PARSE⟩
  | SnapshotFile.regular data => g_key_file_parse_data env ⟨[], none⟩ [] data

/-- The function `g_key_file_get_keys`: the keys of the group in the order
of the file, `none` (`NULL`, with the error `G_KEY_FILE_ERROR_GROUP_NOT_FOUND`)
when the key file has no such group. -/
def g_key_file_get_keys (kf : GKeyFile) (group_name : List Char) : Option (List (List Char)) :=
  (kf.groups.find? (fun g => g.1 == group_name)).map (fun g => g.2.map Prod.fst)

/-- The raw value `g_key_file_get_value` finds for a key: the one of the
last pair of the group with that key. -/
def g_key_file_get_value (kf : GKeyFile) (group_name key : List Char) : Option (List Char) :=
  match kf.groups.find? (fun g => g.1 == group_name) with
  | none => none
  | some g => (g.2.reverse.find? (fun p => p.1 == key)).map Prod.snd

/-- The function `g_key_file_get_string` with no error location: `none`
(`NULL`) when the key is not there or its raw value is not UTF-8, else the
raw value with its escapes replaced. -/
def g_key_file_get_string (kf : GKeyFile) (group_name key : List Char) : Option (List Char) :=
  match g_key_file_get_value kf group_name key with
  | none => none
  | some value =>
    if g_utf8_validate value then some (g_key_file_parse_value_as_string value) else none

/-! ## Snapshots -/

/-- The function `db_save_to_file`: the bytes handed to
`g_file_set_contents`.  Every entry of the store is set as a string of the
group `UDB_DB_SECTION` and the key file is written out. -/
def db_save_to_file (cfg : Config) (env : KeyFileEnv) (db : Store) : List Char :=
  g_key_file_to_data cfg.UDB_DB_SECTION
    (db.foldl (fun pairs p => g_key_file_set_string env cfg.UDB_DB_SECTION pairs p.1 p.2) [])

/-- The function `db_load_from_file`: the store afterwards and the error it
reports.  When the file does not load the store is left as it is; otherwise
it is emptied, and filled with the keys of the group `UDB_DB_SECTION` whose
value `g_key_file_get_string` returns (`if (val)`). -/
def db_load_from_file (cfg : Config) (env : KeyFileEnv) (file : SnapshotFile) (db : Store) :
    Store × Option GError :=
  match g_key_file_load_from_file env file with
  | Except.error e => (db, some e)
  | Except.ok keyfile =>
    match g_key_file_get_keys keyfile cfg.UDB_DB_SECTION with
    | none => ([], some ⟨GErrorDomain.G_KEY_FILE_ERROR, G_KEY_FILE_ERROR_GROUP_NOT_FOUND⟩)
    | some keys =>
      (keys.foldl (fun db1 key =>
          match g_key_file_get_string keyfile cfg.UDB_DB_SECTION key with
          | some val => (db_insert db1 key val).2
          | none => db1) [], none)

/-- How the start of `main` ends: the server runs with a store, or `main`
returns the code of the error. -/
inductive Startup where
  | running (db : Store)
  | aborted (exit_code : Nat)
  deriving DecidableEq, Repr

/-- The start of `main` from `db_init` on: with `db_file_path` set the
snapshot is loaded, and `main` returns when there is an error whose code is
not `G_FILE_ERROR_NOENT` (the domain of the error is not looked at). -/
def startup (cfg : Config) (env : KeyFileEnv) (db_file : Option SnapshotFile) : Startup :=
  match db_file with
  | none => Startup.running []
  | some file =>
    match db_load_from_file cfg env file [] with
    | (db, some error) =>
      if error.code != G_FILE_ERROR_NOENT then Startup.aborted error.code
      else Startup.running db
    | (db, none) => Startup.running db

/-- A key-file environment to evaluate examples with: the language names of
the `C` locale and brackets that hold ASCII locale characters only. -/
def sampleEnv : KeyFileEnv :=
  ⟨["C".toList],
    fun suffix =>
      (suffix.dropWhile (fun c => isLowerChar c || isUpperChar c || isDigitChar c
        || c == '-' || c == '_' || c == '.' || c == '@')) == [']']⟩

/-- The keys a snapshot keeps as they are: not empty, without `=`, `[`, `]`
and line feed, starting with neither white space nor `#`, not ending with
white space, and not the word `Encoding`. -/
def SnapshotKey (key : List Char) : Prop :=
  key ≠ []
    ∧ (∀ c ∈ key, isKeyNameByte c = true ∧ c ≠ LF)
    ∧ (∀ c, key.head? = some c → g_ascii_isspace c = false ∧ c ≠ '#')
    ∧ (∀ c, key.getLast? = some c → g_ascii_isspace c = false)
    ∧ key ≠ "Encoding".toList

/-- The values a snapshot keeps as they are: valid UTF-8 that does not start
with a form feed. -/
def SnapshotValue (value : List Char) : Prop :=
  g_utf8_validate value = true ∧ value.head? ≠ some (Char.ofNat 12)

instance : DecidablePred SnapshotKey := fun key => by
  unfold SnapshotKey
  infer_instance

instance : DecidablePred SnapshotValue := fun value => by
  unfold SnapshotValue
  infer_instance

/-! ## The text of a token -/

/-- Whether `w` is the text of an identifier: a byte of
`cset_identifier_first` followed by bytes of `cset_identifier_nth`. -/
def isIdentifierText : List Char → Bool
  | [] => false
  | ch :: r => isIdentifierFirst ch && r.all isIdentifierNth

/-- Whether an identifier that ends right before `x` would go on into `x`:
`x` starts with a byte of `cset_identifier_nth`. -/
def continuesIdentifier : List Char → Bool
  | [] => false
  | c :: _ => isIdentifierNth c

/-- The text `t` is a key as a client writes it, and `key` the key it names:
`t` holds no NUL and the scanner reads all of `t` as one identifier or one
quoted string of value `key`. -/
def KeyToken (t key : List Char) : Prop :=
  NUL ∉ t
    ∧ (g_scanner_get_token_ll t = (GToken.G_TOKEN_IDENTIFIER key, [])
        ∨ g_scanner_get_token_ll t = (GToken.G_TOKEN_STRING key, []))

/-- The text `t` is a value as a client writes it, and `tok` the token it is
read as: `t` holds no NUL and the scanner reads all of `t` as one identifier,
integer, float or quoted string.  A lone `.` is no such text: after a leading
`.` the scanner reads the next byte into the number whatever it is, at the
end of a line the terminating NUL, and goes on with the bytes behind it. -/
def ValueToken (t : List Char) (tok : GToken) : Prop :=
  NUL ∉ t ∧ t ≠ ['.'] ∧ g_scanner_get_token_ll t = (tok, [])
    ∧ ((∃ v, tok = GToken.G_TOKEN_IDENTIFIER v) ∨ (∃ v, tok = GToken.G_TOKEN_INT v)
        ∨ (∃ v, tok = GToken.G_TOKEN_FLOAT v) ∨ (∃ v, tok = GToken.G_TOKEN_STRING v))

/-- The string `udb_handle_set` stores for a value token: the identifier or
the string itself, `%ld` of an integer, `%g` of a float. -/
def stored_value (cfg : Config) : GToken → List Char
  | GToken.G_TOKEN_IDENTIFIER v => v
  | GToken.G_TOKEN_INT v => printf_ld v
  | GToken.G_TOKEN_FLOAT t => cfg.printf_g t
  | GToken.G_TOKEN_STRING v => v
  | _ => []

/-! ## Replies as lines -/

/-- A reply that is exactly one line: it ends with CR LF and holds no CR and
no LF before them. -/
def OneLine (reply : List Char) : Prop :=
  reply.drop (reply.length - 2) = [CR, LF]
    ∧ CR ∉ reply.take (reply.length - 2) ∧ LF ∉ reply.take (reply.length - 2)

instance : DecidablePred OneLine := fun reply => by
  unfold OneLine
  infer_instance

/-! ## Examples -/

/-- A configuration to evaluate examples with: a key limit of 64 bytes, the
section `udb`, and a stand-in for `printf ("%g")` that returns the text of
the number as it was written.  No theorem below depends on these values
except the examples that name this configuration. -/
def sampleConfig : Config := ⟨64, "udb".toList, fun text => text⟩

/-! # Theorems -/

/-! ## Facts about the scanner -/

/-- For a skip byte `g_scanner_get_token_ll` gives the `G_TOKEN_CHAR` of that
byte: the token `g_scanner_get_token_i` asks for again. -/
theorem g_scanner_get_token_ll_skip (c : Char) (rest : List Char) (h : isSkipChar c = true) :
    g_scanner_get_token_ll (c :: rest) = (GToken.G_TOKEN_CHAR c, rest) := by
  have hc : c = ' ' ∨ c = TAB ∨ c = CR ∨ c = LF := by
    simpa [isSkipChar, or_assoc] using h
  rcases hc with rfl | rfl | rfl | rfl <;> rfl

/-- At a byte that is not skipped the next token is the raw token. -/
theorem g_scanner_get_next_token_cons (c : Char) (rest : List Char)
    (h : isSkipChar c = false) :
    g_scanner_get_next_token (c :: rest) = g_scanner_get_token_ll (c :: rest) := by
  simp [g_scanner_get_next_token, h]

/-- The number branch gives an error, an integer or a float. -/
theorem number_parsing_kind (dotted : Bool) (tok : NumType) (ch : Char) (text : List Char) :
    (number_parsing dotted tok ch text).1 = GToken.G_TOKEN_ERROR
      ∨ (∃ v, (number_parsing dotted tok ch text).1 = GToken.G_TOKEN_INT v)
      ∨ (∃ t, (number_parsing dotted tok ch text).1 = GToken.G_TOKEN_FLOAT t) := by
  unfold number_parsing
  generalize number_loop tok ch ((if dotted then ['0', '.'] else []) ++ [ch]) text = r
  obtain ⟨t, g, rest⟩ := r
  cases t <;> simp only [number_convert] <;> (try split_ifs) <;> simp

/-- The number branch never gives an identifier. -/
theorem number_parsing_ne_identifier (dotted : Bool) (tok : NumType) (ch : Char)
    (text : List Char) (s rest : List Char) :
    number_parsing dotted tok ch text ≠ (GToken.G_TOKEN_IDENTIFIER s, rest) := by
  intro h
  have h1 : (number_parsing dotted tok ch text).1 = GToken.G_TOKEN_IDENTIFIER s := by rw [h]
  rcases number_parsing_kind dotted tok ch text with h2 | ⟨v, h2⟩ | ⟨t, h2⟩ <;>
    rw [h1] at h2 <;> exact GToken.noConfusion h2

/-- The number branch never gives a string. -/
theorem number_parsing_ne_string (dotted : Bool) (tok : NumType) (ch : Char)
    (text : List Char) (s rest : List Char) :
    number_parsing dotted tok ch text ≠ (GToken.G_TOKEN_STRING s, rest) := by
  intro h
  have h1 : (number_parsing dotted tok ch text).1 = GToken.G_TOKEN_STRING s := by rw [h]
  rcases number_parsing_kind dotted tok ch text with h2 | ⟨v, h2⟩ | ⟨t, h2⟩ <;>
    rw [h1] at h2 <;> exact GToken.noConfusion h2

/-- The C string at an identifier byte that a NUL follows is that byte. -/
theorem cstr_identifier_nul (ch : Char) (r : List Char) (hf : isIdentifierFirst ch = true) :
    cstr (ch :: NUL :: r) = [ch] := by
  have hne : ch ≠ NUL := by
    rintro rfl
    revert hf
    decide
  unfold cstr
  rw [List.takeWhile_cons_of_pos (by simpa using hne), List.takeWhile_cons_of_neg (by simp)]

/-- An identifier of one byte that a NUL follows: the NUL is read, and so are
the bytes of `cset_identifier_nth` behind it. -/
theorem g_scanner_get_token_ll_identifier_nul (ch : Char) (r : List Char)
    (hf : isIdentifierFirst ch = true) :
    g_scanner_get_token_ll (ch :: NUL :: r)
      = (GToken.G_TOKEN_IDENTIFIER [ch], r.dropWhile isIdentifierNth) := by
  simp only [g_scanner_get_token_ll, hf, if_true]
  rw [cstr_identifier_nul ch _ hf]

/-- An identifier that no NUL follows right after its first byte runs over
the bytes of `cset_identifier_nth`. -/
theorem g_scanner_get_token_ll_identifier_cons (ch : Char) (r : List Char)
    (hf : isIdentifierFirst ch = true) (hr : r.head? ≠ some NUL) :
    g_scanner_get_token_ll (ch :: r)
      = (GToken.G_TOKEN_IDENTIFIER (ch :: r.takeWhile isIdentifierNth),
          r.dropWhile isIdentifierNth) := by
  cases r with
  | nil => simp [g_scanner_get_token_ll, hf]
  | cons c r1 =>
    have hc : c ≠ NUL := fun e => hr (by rw [e]; rfl)
    simp only [g_scanner_get_token_ll, hf, if_true, if_neg hc]

/-- A raw identifier token starts at a byte of `cset_identifier_first` and
its value runs over the bytes of `cset_identifier_nth` that follow; the text
left starts behind them, or behind a NUL that follows the first byte and the
bytes of `cset_identifier_nth` after it. -/
theorem g_scanner_get_token_ll_identifier (text s rest : List Char)
    (h : g_scanner_get_token_ll text = (GToken.G_TOKEN_IDENTIFIER s, rest)) :
    ∃ ch r, text = ch :: r ∧ isIdentifierFirst ch = true
      ∧ s = ch :: r.takeWhile isIdentifierNth
      ∧ (rest = r.dropWhile isIdentifierNth
          ∨ ∃ r1, r = NUL :: r1 ∧ rest = r1.dropWhile isIdentifierNth) := by
  cases text with
  | nil => simp [g_scanner_get_token_ll] at h
  | cons ch r =>
    by_cases hf : isIdentifierFirst ch = true
    · by_cases hr : r.head? = some NUL
      · obtain ⟨r1, rfl⟩ : ∃ r1, r = NUL :: r1 := by
          cases r with
          | nil => simp at hr
          | cons c r1 => exact ⟨r1, by simp at hr; rw [hr]⟩
        rw [g_scanner_get_token_ll_identifier_nul ch r1 hf] at h
        simp only [Prod.mk.injEq, GToken.G_TOKEN_IDENTIFIER.injEq] at h
        refine ⟨ch, _, rfl, hf, ?_, Or.inr ⟨r1, rfl, h.2.symm⟩⟩
        rw [List.takeWhile_cons_of_neg (by decide)]
        exact h.1.symm
      · rw [g_scanner_get_token_ll_identifier_cons ch r hf hr] at h
        simp only [Prod.mk.injEq, GToken.G_TOKEN_IDENTIFIER.injEq] at h
        exact ⟨ch, r, rfl, hf, h.1.symm, Or.inl h.2.symm⟩
    · exfalso
      simp only [g_scanner_get_token_ll, hf] at h
      repeat' split at h
      all_goals first
        | exact number_parsing_ne_identifier _ _ _ _ _ _ h
        | contradiction
        | simp at h

/-- A raw string token comes from one of the two quote loops. -/
theorem g_scanner_get_token_ll_string (text s rest : List Char)
    (h : g_scanner_get_token_ll text = (GToken.G_TOKEN_STRING s, rest)) :
    ∃ r g, (text = SQUOTE :: r ∧ scan_string_sq r = (some g, rest) ∧ s = cstr g)
      ∨ (text = DQUOTE :: r ∧ scan_string_dq r = (some g, rest) ∧ s = cstr g) := by
  cases text with
  | nil => simp [g_scanner_get_token_ll] at h
  | cons ch r =>
    by_cases hf : isIdentifierFirst ch = true
    · exfalso
      simp only [g_scanner_get_token_ll, hf, if_true] at h
      repeat' split at h
      all_goals simp at h
    · simp only [g_scanner_get_token_ll, hf, Bool.false_eq_true, if_false] at h
      by_cases h2 : ch = NUL
      · simp [h2] at h
      · by_cases h3 : ch = SQUOTE
        · subst h3
          rw [if_neg h2, if_pos rfl] at h
          rcases hs : scan_string_sq r with ⟨_ | g, r1⟩
          · simp [hs] at h
          · simp only [hs, Prod.mk.injEq, GToken.G_TOKEN_STRING.injEq] at h
            exact ⟨r, g, Or.inl ⟨rfl, h.2 ▸ hs, h.1.symm⟩⟩
        · by_cases h4 : ch = DQUOTE
          · subst h4
            rw [if_neg h2, if_neg h3, if_pos rfl] at h
            rcases hs : scan_string_dq r with ⟨_ | g, r1⟩
            · simp [hs] at h
            · simp only [hs, Prod.mk.injEq, GToken.G_TOKEN_STRING.injEq] at h
              exact ⟨r, g, Or.inr ⟨rfl, h.2 ▸ hs, h.1.symm⟩⟩
          · exfalso
            rw [if_neg h2, if_neg h3, if_neg h4] at h
            repeat' split at h
            all_goals first
              | exact number_parsing_ne_string _ _ _ _ _ _ h
              | contradiction
              | simp at h

/-! ## Dispatch -/

/-- The next token is the raw token at the first byte that is not skipped. -/
theorem g_scanner_get_next_token_eq (text : List Char) :
    g_scanner_get_next_token text = g_scanner_get_token_ll (text.dropWhile isSkipChar) := by
  induction text with
  | nil => rfl
  | cons c rest ih =>
    by_cases h : isSkipChar c = true
    · simp [g_scanner_get_next_token, h, ih]
    · simp [g_scanner_get_next_token, h]

/-- An identifier token holds bytes of `cset_identifier_nth` only. -/
theorem identifier_token_bytes (text s rest : List Char)
    (h : g_scanner_get_next_token text = (GToken.G_TOKEN_IDENTIFIER s, rest)) :
    ∀ c ∈ s, isIdentifierNth c = true := by
  rw [g_scanner_get_next_token_eq] at h
  obtain ⟨ch, r, -, hf, hs, -⟩ := g_scanner_get_token_ll_identifier _ _ _ h
  subst hs
  intro c hc
  rcases List.mem_cons.1 hc with rfl | hc
  · simp only [isIdentifierFirst, Bool.or_eq_true] at hf
    simp only [isIdentifierNth, Bool.or_eq_true]
    tauto
  · exact (List.mem_takeWhile_imp hc)

/-- Case-insensitive equality is transitive on its left argument. -/
theorem g_ascii_strcasecmp_eq_congr (a b c : List Char)
    (h : g_ascii_strcasecmp_eq a b = true) :
    g_ascii_strcasecmp_eq a c = g_ascii_strcasecmp_eq b c := by
  simp only [g_ascii_strcasecmp_eq, beq_iff_eq] at h
  simp only [g_ascii_strcasecmp_eq, h]

/-- A line whose first token is an identifier that matches `GET` is handled
by `udb_handle_get`. -/
theorem process_command_line_get (cfg : Config) (db : Store) (line cmd text : List Char)
    (h : g_scanner_get_next_token (g_scanner_input_text line)
      = (GToken.G_TOKEN_IDENTIFIER cmd, text))
    (hc : g_ascii_strcasecmp_eq cmd "GET".toList = true) :
    process_command_line cfg db line = udb_handle_get cfg text db := by
  simp only [process_command_line, h, udb_commands, List.find?, hc]

/-- A line whose first token is an identifier that matches `SET` is handled
by `udb_handle_set`. -/
theorem process_command_line_set (cfg : Config) (db : Store) (line cmd text : List Char)
    (h : g_scanner_get_next_token (g_scanner_input_text line)
      = (GToken.G_TOKEN_IDENTIFIER cmd, text))
    (hc : g_ascii_strcasecmp_eq cmd "SET".toList = true) :
    process_command_line cfg db line = udb_handle_set cfg text db := by
  have h1 : g_ascii_strcasecmp_eq cmd "GET".toList = false := by
    rw [g_ascii_strcasecmp_eq_congr _ _ _ hc]; decide
  simp only [process_command_line, h, udb_commands, List.find?, hc, h1]

/-- A line whose first token is an identifier that matches `DEL` is handled
by `udb_handle_del`. -/
theorem process_command_line_del (cfg : Config) (db : Store) (line cmd text : List Char)
    (h : g_scanner_get_next_token (g_scanner_input_text line)
      = (GToken.G_TOKEN_IDENTIFIER cmd, text))
    (hc : g_ascii_strcasecmp_eq cmd "DEL".toList = true) :
    process_command_line cfg db line = udb_handle_del cfg text db := by
  have h1 : g_ascii_strcasecmp_eq cmd "GET".toList = false := by
    rw [g_ascii_strcasecmp_eq_congr _ _ _ hc]; decide
  have h2 : g_ascii_strcasecmp_eq cmd "SET".toList = false := by
    rw [g_ascii_strcasecmp_eq_congr _ _ _ hc]; decide
  simp only [process_command_line, h, udb_commands, List.find?, hc, h1, h2]

/-- A line whose first token is an identifier that matches no entry of
`udb_commands` gets the unknown-command reply. -/
theorem process_command_line_unknown (cfg : Config) (db : Store) (line cmd text : List Char)
    (h : g_scanner_get_next_token (g_scanner_input_text line)
      = (GToken.G_TOKEN_IDENTIFIER cmd, text))
    (hget : g_ascii_strcasecmp_eq cmd "GET".toList = false)
    (hset : g_ascii_strcasecmp_eq cmd "SET".toList = false)
    (hdel : g_ascii_strcasecmp_eq cmd "DEL".toList = false) :
    process_command_line cfg db line
      = ("ERR Unknown command: ".toList ++ cmd ++ "\r\n".toList, db) := by
  simp only [process_command_line, h, udb_commands, List.find?, hget, hset, hdel]

/-- A line whose first token is no identifier gets the reply that names the
token's type. -/
theorem process_command_line_no_identifier (cfg : Config) (db : Store) (line : List Char)
    (h : ∀ cmd, (g_scanner_get_next_token (g_scanner_input_text line)).1
      ≠ GToken.G_TOKEN_IDENTIFIER cmd) :
    process_command_line cfg db line
      = ("ERR Expected Command Identifier (got token=".toList
          ++ decimal (g_scanner_get_next_token (g_scanner_input_text line)).1.code
          ++ ")\r\n".toList, db) := by
  unfold process_command_line
  split
  · next cmd text heq => exact absurd (by rw [heq]) (h cmd)
  · next tok text hne heq => rw [heq]

/-! ## Facts about the store -/

/-- Looking up in a store from which `key` was taken out. -/
theorem db_lookup_without (db : Store) (key key1 : List Char) :
    db_lookup (db_without db key) key1
      = if key1 = key then none else db_lookup db key1 := by
  induction db with
  | nil => simp [db_without, db_lookup]
  | cons p rest ih =>
    obtain ⟨k, v⟩ := p
    unfold db_without at ih ⊢
    by_cases hk : k = key
    · subst hk
      rw [List.filter_cons_of_neg (by simp), ih]
      by_cases h1 : key1 = k
      · simp [h1]
      · have h2 : ¬ k = key1 := fun h => h1 h.symm
        simp [db_lookup, h1, h2]
    · rw [List.filter_cons_of_pos (by simpa using hk)]
      by_cases h1 : k = key1
      · subst h1; simp [db_lookup, hk]
      · simp only [db_lookup, h1, if_false]
        exact ih

/-- After `db_insert` the key maps to the value and every other key is as
before. -/
theorem db_lookup_insert (db : Store) (key value key1 : List Char) :
    db_lookup (db_insert db key value).2 key1
      = if key1 = key then some value else db_lookup db key1 := by
  by_cases h : key1 = key
  · subst h; simp [db_insert, db_lookup]
  · have h2 : ¬ key = key1 := fun e => h e.symm
    simp [db_insert, db_lookup, h, h2, db_lookup_without]

/-- After `db_remove` the key is absent and every other key is as before. -/
theorem db_lookup_remove (db : Store) (key key1 : List Char) :
    db_lookup (db_remove db key).2 key1
      = if key1 = key then none else db_lookup db key1 := by
  simp [db_remove, db_lookup_without]

/-! ## What the handlers do to the store -/

/-- The handler of `GET` leaves the store as it is. -/
theorem udb_handle_get_store (cfg : Config) (text : List Char) (db : Store) :
    (udb_handle_get cfg text db).2 = db := by
  unfold udb_handle_get
  split
  · split <;> rfl
  · split <;> rfl
  · rfl

/-- The second half of the handler of `SET` either leaves the store as it is
or replies `OK` and inserts a value under `key`. -/
theorem udb_handle_set_value_cases (cfg : Config) (key text : List Char) (db : Store) :
    (udb_handle_set_value cfg key text db).2 = db
      ∨ ∃ v, udb_handle_set_value cfg key text db = (REPLY_OK, (db_insert db key v).2) := by
  unfold udb_handle_set_value
  split_ifs
  · exact Or.inl rfl
  · split
    · exact Or.inr ⟨_, rfl⟩
    · exact Or.inr ⟨_, rfl⟩
    · exact Or.inr ⟨_, rfl⟩
    · exact Or.inr ⟨_, rfl⟩
    · exact Or.inl rfl
    · exact Or.inl rfl

/-- The handler of `SET` either leaves the store as it is or replies `OK`
and inserts a value under the key its first token names. -/
theorem udb_handle_set_cases (cfg : Config) (text : List Char) (db : Store) :
    (udb_handle_set cfg text db).2 = db
      ∨ ∃ tok text1 key v, g_scanner_get_next_token text = (tok, text1)
          ∧ (tok = GToken.G_TOKEN_IDENTIFIER key ∨ tok = GToken.G_TOKEN_STRING key)
          ∧ udb_handle_set cfg text db = (REPLY_OK, (db_insert db key v).2) := by
  unfold udb_handle_set
  split
  · next key text1 heq =>
    rcases udb_handle_set_value_cases cfg key text1 db with h | ⟨v, h⟩
    · exact Or.inl h
    · exact Or.inr ⟨_, text1, key, v, heq, Or.inl rfl, h⟩
  · next key text1 heq =>
    rcases udb_handle_set_value_cases cfg key text1 db with h | ⟨v, h⟩
    · exact Or.inl h
    · exact Or.inr ⟨_, text1, key, v, heq, Or.inr rfl, h⟩
  · exact Or.inl rfl

/-- The handler of `DEL` either leaves the store as it is or replies `OK`
and removes the key its token names. -/
theorem udb_handle_del_cases (cfg : Config) (text : List Char) (db : Store) :
    (udb_handle_del cfg text db).2 = db
      ∨ ∃ tok text1 key, g_scanner_get_next_token text = (tok, text1)
          ∧ (tok = GToken.G_TOKEN_IDENTIFIER key ∨ tok = GToken.G_TOKEN_STRING key)
          ∧ udb_handle_del cfg text db = (REPLY_OK, (db_remove db key).2) := by
  unfold udb_handle_del
  split
  · next key text1 heq => exact Or.inr ⟨_, text1, key, heq, Or.inl rfl, rfl⟩
  · next key text1 heq => exact Or.inr ⟨_, text1, key, heq, Or.inr rfl, rfl⟩
  · exact Or.inl rfl

/-- What a line can do: nothing to the store, or, replying `OK`, the insert
of a `SET` or the removal of a `DEL` at the key its second token names. -/
theorem process_command_line_cases (cfg : Config) (db : Store) (line : List Char) :
    (process_command_line cfg db line).2 = db
      ∨ ∃ cmd text tok text1 key,
          g_scanner_get_next_token (g_scanner_input_text line)
            = (GToken.G_TOKEN_IDENTIFIER cmd, text)
          ∧ g_scanner_get_next_token text = (tok, text1)
          ∧ (tok = GToken.G_TOKEN_IDENTIFIER key ∨ tok = GToken.G_TOKEN_STRING key)
          ∧ (process_command_line cfg db line).1 = REPLY_OK
          ∧ ((g_ascii_strcasecmp_eq cmd "SET".toList = true
                ∧ ∃ v, (process_command_line cfg db line).2 = (db_insert db key v).2)
              ∨ (g_ascii_strcasecmp_eq cmd "DEL".toList = true
                ∧ (process_command_line cfg db line).2 = (db_remove db key).2)) := by
  rcases hft : g_scanner_get_next_token (g_scanner_input_text line) with ⟨tok0, text⟩
  by_cases hid : ∃ cmd, tok0 = GToken.G_TOKEN_IDENTIFIER cmd
  · obtain ⟨cmd, rfl⟩ := hid
    by_cases hget : g_ascii_strcasecmp_eq cmd "GET".toList = true
    · rw [process_command_line_get cfg db line cmd text hft hget]
      exact Or.inl (udb_handle_get_store cfg text db)
    by_cases hset : g_ascii_strcasecmp_eq cmd "SET".toList = true
    · rw [process_command_line_set cfg db line cmd text hft hset]
      rcases udb_handle_set_cases cfg text db with h | ⟨tok, text1, key, v, h1, h2, h3⟩
      · exact Or.inl h
      · refine Or.inr ⟨cmd, text, tok, text1, key, rfl, h1, h2, ?_, Or.inl ⟨hset, v, ?_⟩⟩ <;>
          rw [h3]
    by_cases hdel : g_ascii_strcasecmp_eq cmd "DEL".toList = true
    · rw [process_command_line_del cfg db line cmd text hft hdel]
      rcases udb_handle_del_cases cfg text db with h | ⟨tok, text1, key, h1, h2, h3⟩
      · exact Or.inl h
      · refine Or.inr ⟨cmd, text, tok, text1, key, rfl, h1, h2, ?_, Or.inr ⟨hdel, ?_⟩⟩ <;>
          rw [h3]
    · rw [process_command_line_unknown cfg db line cmd text hft (by simpa using hget)
        (by simpa using hset) (by simpa using hdel)]
      exact Or.inl rfl
  · rw [process_command_line_no_identifier cfg db line
      (fun cmd h => hid ⟨cmd, by rw [hft] at h; exact h⟩)]
    exact Or.inl rfl

/-! ## Replies -/

/-- A body followed by CR LF is one line exactly when the body holds neither
CR nor LF. -/
theorem oneLine_append (body : List Char) :
    OneLine (body ++ [CR, LF]) ↔ CR ∉ body ∧ LF ∉ body := by
  have hl : (body ++ [CR, LF]).length - 2 = body.length := by simp
  unfold OneLine
  rw [hl, List.drop_left, List.take_left]
  simp

/-- A one-line reply ends with CR LF. -/
theorem oneLine_ends (reply : List Char) (h : OneLine reply) :
    ∃ body, reply = body ++ [CR, LF] :=
  ⟨reply.take (reply.length - 2), by
    conv_lhs => rw [← List.take_append_drop (reply.length - 2) reply]
    rw [h.1]⟩

/-- Bytes of identifiers are neither CR nor LF. -/
theorem isIdentifierNth_ne (c : Char) (h : isIdentifierNth c = true) : c ≠ CR ∧ c ≠ LF := by
  constructor <;> (rintro rfl; revert h; decide)

/-- The reply to a missing key is one line. -/
theorem oneLine_reply_missing_key (tok : GToken) : OneLine (reply_missing_key tok) := by
  cases tok <;> simp only [reply_missing_key, GToken.code] <;> decide

/-- The reply to an unknown command is one line. -/
theorem oneLine_unknown (cmd : List Char) (h : ∀ c ∈ cmd, isIdentifierNth c = true) :
    OneLine ("ERR Unknown command: ".toList ++ cmd ++ "\r\n".toList) := by
  have e : "\r\n".toList = [CR, LF] := by decide
  rw [e, oneLine_append]
  constructor
  · intro hm
    rcases List.mem_append.1 hm with hm | hm
    · revert hm; decide
    · exact (isIdentifierNth_ne _ (h _ hm)).1 rfl
  · intro hm
    rcases List.mem_append.1 hm with hm | hm
    · revert hm; decide
    · exact (isIdentifierNth_ne _ (h _ hm)).2 rfl

/-- The reply to a malformed value is one line. -/
theorem oneLine_malformed (tok : GToken) :
    OneLine ("ERR Malformed Value Argument (token=".toList ++ decimal tok.code
      ++ ")\r\n".toList) := by
  cases tok <;> simp only [GToken.code] <;> decide

/-- The reply to a line that starts with no identifier is one line. -/
theorem oneLine_expected (tok : GToken) :
    OneLine ("ERR Expected Command Identifier (got token=".toList ++ decimal tok.code
      ++ ")\r\n".toList) := by
  cases tok <;> simp only [GToken.code] <;> decide

/-- The fixed replies are one line each. -/
theorem oneLine_fixed :
    OneLine REPLY_OK ∧ OneLine REPLY_NULL ∧ OneLine "ERR Key To Long\r\n".toList
      ∧ OneLine "ERR Missing Value Argument\r\n".toList := by
  decide

/-- The reply of `GET` is one line, or the value stored under the key that
its token names, followed by CR LF. -/
theorem udb_handle_get_reply (cfg : Config) (text : List Char) (db : Store) :
    OneLine (udb_handle_get cfg text db).1
      ∨ ∃ tok text1 key value, g_scanner_get_next_token text = (tok, text1)
          ∧ (tok = GToken.G_TOKEN_IDENTIFIER key ∨ tok = GToken.G_TOKEN_STRING key)
          ∧ db_lookup db key = some value
          ∧ (udb_handle_get cfg text db).1 = value ++ [CR, LF] := by
  unfold udb_handle_get
  split
  · next key text1 heq =>
    split
    · exact Or.inl oneLine_fixed.2.1
    · next result h => exact Or.inr ⟨_, text1, key, result, heq, Or.inl rfl, h, rfl⟩
  · next key text1 heq =>
    split
    · exact Or.inl oneLine_fixed.2.1
    · next result h => exact Or.inr ⟨_, text1, key, result, heq, Or.inr rfl, h, rfl⟩
  · exact Or.inl (oneLine_reply_missing_key _)

/-- The replies of the second half of `SET` are one line each. -/
theorem udb_handle_set_value_reply (cfg : Config) (key text : List Char) (db : Store) :
    OneLine (udb_handle_set_value cfg key text db).1 := by
  unfold udb_handle_set_value
  split_ifs
  · exact oneLine_fixed.2.2.1
  · split
    · exact oneLine_fixed.1
    · exact oneLine_fixed.1
    · exact oneLine_fixed.1
    · exact oneLine_fixed.1
    · exact oneLine_fixed.2.2.2
    · exact oneLine_malformed _

/-- The replies of `SET` are one line each. -/
theorem udb_handle_set_reply (cfg : Config) (text : List Char) (db : Store) :
    OneLine (udb_handle_set cfg text db).1 := by
  unfold udb_handle_set
  split
  · exact udb_handle_set_value_reply _ _ _ _
  · exact udb_handle_set_value_reply _ _ _ _
  · exact oneLine_reply_missing_key _

/-- The replies of `DEL` are one line each. -/
theorem udb_handle_del_reply (cfg : Config) (text : List Char) (db : Store) :
    OneLine (udb_handle_del cfg text db).1 := by
  unfold udb_handle_del
  split
  · exact oneLine_fixed.1
  · exact oneLine_fixed.1
  · exact oneLine_reply_missing_key _

/-- Every reply is one line, except that of a line whose command word is
`GET` and whose key is in the store: that reply is the stored value followed
by CR LF. -/
theorem process_command_line_reply (cfg : Config) (db : Store) (line : List Char) :
    OneLine (process_command_line cfg db line).1
      ∨ ∃ cmd text tok text1 key value,
          g_scanner_get_next_token (g_scanner_input_text line)
            = (GToken.G_TOKEN_IDENTIFIER cmd, text)
          ∧ g_ascii_strcasecmp_eq cmd "GET".toList = true
          ∧ g_scanner_get_next_token text = (tok, text1)
          ∧ (tok = GToken.G_TOKEN_IDENTIFIER key ∨ tok = GToken.G_TOKEN_STRING key)
          ∧ db_lookup db key = some value
          ∧ (process_command_line cfg db line).1 = value ++ [CR, LF] := by
  rcases hft : g_scanner_get_next_token (g_scanner_input_text line) with ⟨tok0, text⟩
  by_cases hid : ∃ cmd, tok0 = GToken.G_TOKEN_IDENTIFIER cmd
  · obtain ⟨cmd, rfl⟩ := hid
    by_cases hget : g_ascii_strcasecmp_eq cmd "GET".toList = true
    · rw [process_command_line_get cfg db line cmd text hft hget]
      rcases udb_handle_get_reply cfg text db with h | ⟨tok, text1, key, value, h1, h2, h3, h4⟩
      · exact Or.inl h
      · exact Or.inr ⟨cmd, text, tok, text1, key, value, rfl, hget, h1, h2, h3, h4⟩
    by_cases hset : g_ascii_strcasecmp_eq cmd "SET".toList = true
    · rw [process_command_line_set cfg db line cmd text hft hset]
      exact Or.inl (udb_handle_set_reply cfg text db)
    by_cases hdel : g_ascii_strcasecmp_eq cmd "DEL".toList = true
    · rw [process_command_line_del cfg db line cmd text hft hdel]
      exact Or.inl (udb_handle_del_reply cfg text db)
    · rw [process_command_line_unknown cfg db line cmd text hft (by simpa using hget)
        (by simpa using hset) (by simpa using hdel)]
      exact Or.inl (oneLine_unknown cmd (identifier_token_bytes _ _ _ hft))
  · rw [process_command_line_no_identifier cfg db line
      (fun cmd h => hid ⟨cmd, by rw [hft] at h; exact h⟩)]
    exact Or.inl (oneLine_expected _)

/-! ## Tokens inside a line -/

/-- Skipped bytes before a token do not change it. -/
theorem g_scanner_get_next_token_skip (pre x : List Char)
    (h : ∀ c ∈ pre, isSkipChar c = true) :
    g_scanner_get_next_token (pre ++ x) = g_scanner_get_next_token x := by
  rw [g_scanner_get_next_token_eq, g_scanner_get_next_token_eq,
    List.dropWhile_append_of_pos h]

/-- A byte of an identifier is not skipped. -/
theorem isSkipChar_of_isIdentifierFirst (c : Char) (h : isIdentifierFirst c = true) :
    isSkipChar c = false := by
  by_contra hs
  have hs1 : isSkipChar c = true := by simpa using hs
  have hc : c = ' ' ∨ c = TAB ∨ c = CR ∨ c = LF := by
    simpa [isSkipChar, or_assoc] using hs1
  rcases hc with rfl | rfl | rfl | rfl <;> revert h <;> decide

/-- An identifier followed by text that does not continue it is read as that
identifier, and the text is left, unless the identifier has one byte and the
text starts with a NUL. -/
theorem g_scanner_get_next_token_identifier (w x : List Char)
    (hw : isIdentifierText w = true) (hx : continuesIdentifier x = false)
    (hq : w.length = 1 → x.head? ≠ some NUL) :
    g_scanner_get_next_token (w ++ x) = (GToken.G_TOKEN_IDENTIFIER w, x) := by
  cases w with
  | nil => simp [isIdentifierText] at hw
  | cons ch r =>
    simp only [isIdentifierText, Bool.and_eq_true, List.all_eq_true] at hw
    obtain ⟨hf, hr⟩ := hw
    rw [List.cons_append, g_scanner_get_next_token_cons _ _
      (isSkipChar_of_isIdentifierFirst ch hf)]
    have hx1 : x.takeWhile isIdentifierNth = [] := by
      cases x with
      | nil => rfl
      | cons c t => exact List.takeWhile_cons_of_neg (by simpa [continuesIdentifier] using hx)
    have hx2 : x.dropWhile isIdentifierNth = x := by
      cases x with
      | nil => rfl
      | cons c t => exact List.dropWhile_cons_of_neg (by simpa [continuesIdentifier] using hx)
    have hhead : (r ++ x).head? ≠ some NUL := by
      cases r with
      | nil => exact hq rfl
      | cons c r1 =>
        intro e
        simp only [List.cons_append, List.head?_cons, Option.some.injEq] at e
        have := hr c (List.mem_cons_self _ _)
        rw [e] at this
        revert this
        decide
    rw [g_scanner_get_token_ll_identifier_cons ch (r ++ x) hf hhead,
      List.takeWhile_append_of_pos hr, List.dropWhile_append_of_pos hr, hx1, hx2,
      List.append_nil]

/-- An identifier at the end of a line, before the terminating NUL, is read
as that identifier whatever lies behind the NUL. -/
theorem g_scanner_get_next_token_identifier_end (w after : List Char)
    (hw : isIdentifierText w = true) :
    ∃ rest, g_scanner_get_next_token (w ++ NUL :: after)
      = (GToken.G_TOKEN_IDENTIFIER w, rest) := by
  by_cases h1 : w.length = 1
  · obtain ⟨ch, rfl⟩ : ∃ ch, w = [ch] := by
      cases w with
      | nil => simp at h1
      | cons ch r =>
        cases r with
        | nil => exact ⟨ch, rfl⟩
        | cons c r1 => simp at h1
    have hf : isIdentifierFirst ch = true := by
      simpa [isIdentifierText] using hw
    refine ⟨after.dropWhile isIdentifierNth, ?_⟩
    rw [List.singleton_append, g_scanner_get_next_token_cons _ _
      (isSkipChar_of_isIdentifierFirst ch hf)]
    exact g_scanner_get_token_ll_identifier_nul ch after hf
  · exact ⟨_, g_scanner_get_next_token_identifier w (NUL :: after) hw rfl
      (fun h => absurd h h1)⟩

/-- Putting a byte in front keeps what a loop found when text is appended. -/
theorem consResult_append (o o1 : Option (List Char) × List Char) (x : List Char)
    (H : ∀ g r, o = (some g, r) → o1 = (some g, r ++ x)) (c : Char) (g r : List Char)
    (h : consResult c o = (some g, r)) : consResult c o1 = (some g, r ++ x) := by
  obtain ⟨_ | g1, r1⟩ := o
  · simp [consResult] at h
  · simp only [consResult, Prod.mk.injEq, Option.some.injEq] at h
    rw [H g1 r1 rfl]
    simp only [consResult, Prod.mk.injEq, Option.some.injEq]
    exact ⟨h.1, by rw [h.2]⟩

/-- A single-quoted string that ends in the text ends there whatever
follows. -/
theorem scan_string_sq_append (t x : List Char) :
    ∀ g r, scan_string_sq t = (some g, r) → scan_string_sq (t ++ x) = (some g, r ++ x) := by
  induction t with
  | nil => intro g r h; simp [scan_string_sq] at h
  | cons c rest ih =>
    intro g r h
    rw [List.cons_append]
    unfold scan_string_sq at h ⊢
    split_ifs at h ⊢ with hn hc
    · simp at h
    · simp only [Prod.mk.injEq, Option.some.injEq] at h ⊢
      exact ⟨h.1, by rw [h.2]⟩
    · exact consResult_append _ _ x ih c g r h

/-- A double-quoted string that ends in the text ends there whatever
follows. -/
theorem scan_string_dq_from_append (t x : List Char) :
    ∀ st g r, scan_string_dq_from st t = (some g, r) →
      scan_string_dq_from st (t ++ x) = (some g, r ++ x) := by
  induction t with
  | nil => intro st g r h; simp [scan_string_dq_from] at h
  | cons c rest ih =>
    intro st g r h
    rw [List.cons_append]
    unfold scan_string_dq_from at h ⊢
    have hplain : ∀ g r,
        (if c = NUL then ((none : Option (List Char)), rest)
          else if c = DQUOTE then (some ([] : List Char), rest)
          else if c = BACKSLASH then scan_string_dq_from DqState.escape rest
          else consResult c (scan_string_dq_from DqState.plain rest)) = (some g, r) →
        (if c = NUL then ((none : Option (List Char)), rest ++ x)
          else if c = DQUOTE then (some ([] : List Char), rest ++ x)
          else if c = BACKSLASH then scan_string_dq_from DqState.escape (rest ++ x)
          else consResult c (scan_string_dq_from DqState.plain (rest ++ x)))
          = (some g, r ++ x) := by
      intro g r h
      split_ifs at h ⊢ with h0 h1 h2
      · simp at h
      · simp only [Prod.mk.injEq, Option.some.injEq] at h ⊢
        exact ⟨h.1, by rw [h.2]⟩
      · exact ih _ _ _ h
      · exact consResult_append _ _ x (ih _) c g r h
    cases st with
    | plain => exact hplain g r h
    | escape =>
      simp only at h ⊢
      split_ifs at h ⊢ <;> first
        | exact consResult_append _ _ x (ih _) _ g r h
        | exact ih _ _ _ h
    | octal n i =>
      simp only at h ⊢
      by_cases ho : isOctalDigit c = true
      · rw [if_pos ho] at h ⊢
        by_cases hn : n = 1
        · rw [if_pos hn] at h ⊢
          exact ih _ _ _ h
        · rw [if_neg hn] at h ⊢
          exact consResult_append _ _ x (ih _) _ g r h
      · rw [if_neg ho] at h ⊢
        exact consResult_append _ _ x hplain _ g r h

/-- The raw token at a single quote. -/
theorem g_scanner_get_token_ll_sq (r : List Char) :
    g_scanner_get_token_ll (SQUOTE :: r)
      = (match scan_string_sq r with
          | (some g, rest1) => (GToken.G_TOKEN_STRING (cstr g), rest1)
          | (none, rest1) => (GToken.G_TOKEN_ERROR, rest1)) := rfl

/-- The raw token at a double quote. -/
theorem g_scanner_get_token_ll_dq (r : List Char) :
    g_scanner_get_token_ll (DQUOTE :: r)
      = (match scan_string_dq r with
          | (some g, rest1) => (GToken.G_TOKEN_STRING (cstr g), rest1)
          | (none, rest1) => (GToken.G_TOKEN_ERROR, rest1)) := rfl

/-- A quoted string is read as the same string whatever text follows it. -/
theorem g_scanner_get_next_token_string (t s x : List Char)
    (h : g_scanner_get_token_ll t = (GToken.G_TOKEN_STRING s, [])) :
    g_scanner_get_next_token (t ++ x) = (GToken.G_TOKEN_STRING s, x) := by
  obtain ⟨r, g, ⟨rfl, hs, hkey⟩ | ⟨rfl, hs, hkey⟩⟩ := g_scanner_get_token_ll_string _ _ _ h
  · rw [List.cons_append, g_scanner_get_next_token_cons _ _ (by decide)]
    have h2 := scan_string_sq_append r x g [] hs
    simp only [List.nil_append] at h2
    rw [g_scanner_get_token_ll_sq, h2, hkey]
  · rw [List.cons_append, g_scanner_get_next_token_cons _ _ (by decide)]
    have h2 := scan_string_dq_from_append r x DqState.plain g [] hs
    simp only [List.nil_append] at h2
    rw [g_scanner_get_token_ll_dq]
    unfold scan_string_dq
    rw [h2, hkey]

/-- The text of an identifier token that is read to the end of a text without
NUL. -/
theorem identifier_text_of_token (t key : List Char) (hn : NUL ∉ t)
    (h : g_scanner_get_token_ll t = (GToken.G_TOKEN_IDENTIFIER key, [])) :
    key = t ∧ isIdentifierText t = true := by
  obtain ⟨ch, r, rfl, hf, hkey, hrest⟩ := g_scanner_get_token_ll_identifier _ _ _ h
  have hrest1 : r.dropWhile isIdentifierNth = [] := by
    rcases hrest with h1 | ⟨r1, rfl, -⟩
    · exact h1.symm
    · exact absurd (List.mem_cons_of_mem _ (List.mem_cons_self _ _)) hn
  have hr : ∀ c ∈ r, isIdentifierNth c = true := List.dropWhile_eq_nil_iff.1 hrest1
  refine ⟨by rw [hkey, List.takeWhile_eq_self_iff.2 hr], ?_⟩
  simp only [isIdentifierText, hf, Bool.true_and, List.all_eq_true]
  exact hr

/-- A key written in a line is read as that key when the text after it
neither continues an identifier nor starts with a NUL, and that text is
left. -/
theorem g_scanner_get_next_token_key (t key x : List Char) (hk : KeyToken t key)
    (hx : continuesIdentifier x = false) (hq : x.head? ≠ some NUL) :
    ∃ tok, (tok = GToken.G_TOKEN_IDENTIFIER key ∨ tok = GToken.G_TOKEN_STRING key)
      ∧ g_scanner_get_next_token (t ++ x) = (tok, x) := by
  obtain ⟨hn, hk | hk⟩ := hk
  · obtain ⟨rfl, hid⟩ := identifier_text_of_token t key hn hk
    exact ⟨_, Or.inl rfl, g_scanner_get_next_token_identifier key x hid hx (fun _ => hq)⟩
  · exact ⟨_, Or.inr rfl, g_scanner_get_next_token_string t key x hk⟩

/-- A key written at the end of a line, before the terminating NUL, is read
as that key whatever lies behind the NUL. -/
theorem g_scanner_get_next_token_key_end (t key after : List Char) (hk : KeyToken t key) :
    ∃ tok rest, (tok = GToken.G_TOKEN_IDENTIFIER key ∨ tok = GToken.G_TOKEN_STRING key)
      ∧ g_scanner_get_next_token (t ++ NUL :: after) = (tok, rest) := by
  obtain ⟨hn, hk | hk⟩ := hk
  · obtain ⟨rfl, hid⟩ := identifier_text_of_token t key hn hk
    obtain ⟨rest, h⟩ := g_scanner_get_next_token_identifier_end key after hid
    exact ⟨_, rest, Or.inl rfl, h⟩
  · exact ⟨_, _, Or.inr rfl, g_scanner_get_next_token_string t key _ hk⟩

/-! ## Numbers at the end of a line -/

/-- The number loop stops before a NUL. -/
theorem number_loop_nul (tok : NumType) (ch : Char) (g a : List Char) :
    number_loop tok ch g (NUL :: a) = (tok, g, NUL :: a) := by
  have hc : ¬ ((g_scanner_char_2_num NUL 36).isSome = true ∨ NUL = '.'
      ∨ ((tok = NumType.FLOAT ∧ (ch = 'e' ∨ ch = 'E')) ∧ (NUL = '+' ∨ NUL = '-'))) := by
    rintro (h | h | ⟨-, h | h⟩) <;> revert h <;> decide
  simp only [number_loop]
  rw [if_neg hc]

/-- What the number loop does in a text it does in the text with a NUL and
more bytes behind it, which it leaves. -/
theorem number_loop_append_nul (t a : List Char) :
    ∀ tok ch g, number_loop tok ch g (t ++ NUL :: a)
      = ((number_loop tok ch g t).1, (number_loop tok ch g t).2.1,
          (number_loop tok ch g t).2.2 ++ NUL :: a) := by
  induction t with
  | nil =>
    intro tok ch g
    rw [List.nil_append, number_loop_nul]
    rfl
  | cons c rest ih =>
    intro tok ch g
    rw [List.cons_append]
    simp only [number_loop]
    split_ifs <;> first
      | rfl
      | exact ih _ _ _

/-- The number branch in a text with a NUL and more bytes behind it. -/
theorem number_parsing_append_nul (dotted : Bool) (tok : NumType) (ch : Char)
    (t a : List Char) :
    number_parsing dotted tok ch (t ++ NUL :: a)
      = ((number_parsing dotted tok ch t).1, (number_parsing dotted tok ch t).2 ++ NUL :: a) := by
  unfold number_parsing
  rw [number_loop_append_nul]

/-- A number that the number branch reads to the end of a text it reads the
same in front of a NUL, which it leaves. -/
theorem number_parsing_end (dotted : Bool) (tok : NumType) (ch : Char) (t a : List Char)
    (tk : GToken) (h : number_parsing dotted tok ch t = (tk, [])) :
    number_parsing dotted tok ch (t ++ NUL :: a) = (tk, NUL :: a) := by
  rw [number_parsing_append_nul, h]
  rfl

/-- An integer or a float that is read to the end of a text is read the same
in front of a NUL, which is left, unless the text is a lone `.`: the byte
after a leading `.` is read into the number whatever it is. -/
theorem g_scanner_get_token_ll_number_end (t a : List Char) (tok : GToken)
    (hdot : t ≠ ['.']) (h : g_scanner_get_token_ll t = (tok, []))
    (hkind : (∃ v, tok = GToken.G_TOKEN_INT v) ∨ (∃ v, tok = GToken.G_TOKEN_FLOAT v)) :
    g_scanner_get_token_ll (t ++ NUL :: a) = (tok, NUL :: a) := by
  have hni : ∀ s, tok ≠ GToken.G_TOKEN_IDENTIFIER s := by
    rcases hkind with ⟨v, rfl⟩ | ⟨v, rfl⟩ <;> intro s hs <;> cases hs
  have hns : ∀ s, tok ≠ GToken.G_TOKEN_STRING s := by
    rcases hkind with ⟨v, rfl⟩ | ⟨v, rfl⟩ <;> intro s hs <;> cases hs
  have hne : tok ≠ GToken.G_TOKEN_ERROR := by
    rcases hkind with ⟨v, rfl⟩ | ⟨v, rfl⟩ <;> intro hs <;> cases hs
  have hneof : tok ≠ GToken.G_TOKEN_EOF := by
    rcases hkind with ⟨v, rfl⟩ | ⟨v, rfl⟩ <;> intro hs <;> cases hs
  have hnc : ∀ s, tok ≠ GToken.G_TOKEN_COMMENT_SINGLE s := by
    rcases hkind with ⟨v, rfl⟩ | ⟨v, rfl⟩ <;> intro s hs <;> cases hs
  have hnch : ∀ s, tok ≠ GToken.G_TOKEN_CHAR s := by
    rcases hkind with ⟨v, rfl⟩ | ⟨v, rfl⟩ <;> intro s hs <;> cases hs
  cases t with
  | nil =>
    simp only [g_scanner_get_token_ll, Prod.mk.injEq] at h
    exact absurd h.1.symm hneof
  | cons ch r =>
    rw [List.cons_append]
    by_cases hf : isIdentifierFirst ch = true
    · obtain ⟨s, rest, hs⟩ : ∃ s rest, g_scanner_get_token_ll (ch :: r)
          = (GToken.G_TOKEN_IDENTIFIER s, rest) := by
        by_cases hr : r.head? = some NUL
        · cases r with
          | nil => simp at hr
          | cons c r1 =>
            simp only [List.head?_cons, Option.some.injEq] at hr
            subst hr
            exact ⟨_, _, g_scanner_get_token_ll_identifier_nul ch r1 hf⟩
        · exact ⟨_, _, g_scanner_get_token_ll_identifier_cons ch r hf hr⟩
      rw [hs] at h
      simp only [Prod.mk.injEq] at h
      exact absurd h.1.symm (hni s)
    · simp only [g_scanner_get_token_ll, hf, Bool.false_eq_true, if_false] at h ⊢
      by_cases h2 : ch = NUL
      · rw [if_pos h2] at h
        simp only [Prod.mk.injEq] at h
        exact absurd h.1.symm hneof
      rw [if_neg h2] at h ⊢
      by_cases h3 : ch = SQUOTE
      · rw [if_pos h3] at h
        split at h
        · simp only [Prod.mk.injEq] at h; exact absurd h.1.symm (hns _)
        · simp only [Prod.mk.injEq] at h; exact absurd h.1.symm hne
      rw [if_neg h3] at h ⊢
      by_cases h4 : ch = DQUOTE
      · rw [if_pos h4] at h
        split at h
        · simp only [Prod.mk.injEq] at h; exact absurd h.1.symm (hns _)
        · simp only [Prod.mk.injEq] at h; exact absurd h.1.symm hne
      rw [if_neg h4] at h ⊢
      by_cases h5 : ch = '0'
      · rw [if_pos h5] at h ⊢
        cases r with
        | nil =>
          simp only [List.nil_append] at h ⊢
          have hx : ¬ (NUL = 'x' ∨ NUL = 'X') := by decide
          have hb : ¬ (NUL = 'b' ∨ NUL = 'B') := by decide
          rw [if_neg hx, if_neg hb]
          exact number_parsing_end false NumType.OCTAL '0' [] a tok h
        | cons x r1 =>
          simp only [List.cons_append] at h ⊢
          by_cases hx : x = 'x' ∨ x = 'X'
          · rw [if_pos hx] at h ⊢
            cases r1 with
            | nil =>
              simp only [Prod.mk.injEq] at h
              exact absurd h.1.symm hne
            | cons d r2 =>
              simp only [List.cons_append] at h ⊢
              by_cases hd : (g_scanner_char_2_num d 16).isNone = true
              · rw [if_pos hd] at h
                simp only [Prod.mk.injEq] at h
                exact absurd h.1.symm hne
              · rw [if_neg hd] at h ⊢
                exact number_parsing_end false NumType.HEX d r2 a tok h
          · rw [if_neg hx] at h ⊢
            by_cases hb : x = 'b' ∨ x = 'B'
            · rw [if_pos hb] at h ⊢
              cases r1 with
              | nil =>
                simp only [Prod.mk.injEq] at h
                exact absurd h.1.symm hne
              | cons d r2 =>
                simp only [List.cons_append] at h ⊢
                by_cases hd : (g_scanner_char_2_num d 10).isNone = true
                · rw [if_pos hd] at h
                  simp only [Prod.mk.injEq] at h
                  exact absurd h.1.symm hne
                · rw [if_neg hd] at h ⊢
                  exact number_parsing_end false NumType.BINARY d r2 a tok h
            · rw [if_neg hb] at h ⊢
              exact number_parsing_end false NumType.OCTAL '0' (x :: r1) a tok h
      rw [if_neg h5] at h ⊢
      by_cases h6 : isDigitChar ch = true
      · rw [if_pos h6] at h ⊢
        exact number_parsing_end false NumType.INT ch r a tok h
      rw [if_neg h6] at h ⊢
      by_cases h7 : ch = '.'
      · rw [if_pos h7] at h ⊢
        cases r with
        | nil => exact absurd (by rw [h7]) hdot
        | cons c r1 =>
          simp only [List.cons_append] at h ⊢
          exact number_parsing_end true NumType.FLOAT c r1 a tok h
      rw [if_neg h7] at h ⊢
      by_cases h8 : ch = '#'
      · rw [if_pos h8] at h
        simp only [Prod.mk.injEq] at h
        exact absurd h.1.symm (hnc _)
      · rw [if_neg h8] at h
        simp only [Prod.mk.injEq] at h
        exact absurd h.1.symm (hnch _)

/-! ## Command lines

A line is written here with the NUL that ends it and the bytes `after` that
lie behind the NUL in memory. -/

/-- A value written at the end of a line, before the terminating NUL, is read
as its token whatever lies behind the NUL. -/
theorem g_scanner_get_next_token_value (vt : List Char) (tok : GToken) (after : List Char)
    (hv : ValueToken vt tok) :
    ∃ rest, g_scanner_get_next_token (vt ++ NUL :: after) = (tok, rest) := by
  obtain ⟨hn, hdot, hll, hkind⟩ := hv
  rcases hkind with ⟨v, rfl⟩ | hi | hf | ⟨v, rfl⟩
  · obtain ⟨rfl, hid⟩ := identifier_text_of_token vt v hn hll
    exact g_scanner_get_next_token_identifier_end v after hid
  · have hnum := g_scanner_get_token_ll_number_end vt after tok hdot hll (Or.inl hi)
    refine ⟨NUL :: after, ?_⟩
    cases vt with
    | nil =>
      obtain ⟨v, rfl⟩ := hi
      simp [g_scanner_get_token_ll] at hll
    | cons c r =>
      by_cases hs : isSkipChar c = true
      · rw [g_scanner_get_token_ll_skip c r hs] at hll
        obtain ⟨v, rfl⟩ := hi
        simp at hll
      · rw [List.cons_append, g_scanner_get_next_token_cons c _ (by simpa using hs)]
        exact hnum
  · have hnum := g_scanner_get_token_ll_number_end vt after tok hdot hll (Or.inr hf)
    refine ⟨NUL :: after, ?_⟩
    cases vt with
    | nil =>
      obtain ⟨v, rfl⟩ := hf
      simp [g_scanner_get_token_ll] at hll
    | cons c r =>
      by_cases hs : isSkipChar c = true
      · rw [g_scanner_get_token_ll_skip c r hs] at hll
        obtain ⟨v, rfl⟩ := hf
        simp at hll
      · rw [List.cons_append, g_scanner_get_next_token_cons c _ (by simpa using hs)]
        exact hnum
  · exact ⟨_, g_scanner_get_next_token_string vt v _ hll⟩

/-- The first token of a line that starts with a command word and a blank,
and the text the scanner is left with. -/
theorem first_token_of_command (w rest : List Char) (hw : isIdentifierText w = true) :
    g_scanner_get_next_token (g_scanner_input_text (w ++ ' ' :: rest))
      = (GToken.G_TOKEN_IDENTIFIER w, ' ' :: rest) :=
  g_scanner_get_next_token_identifier w (' ' :: rest) hw rfl (fun _ => by simp only [List.head?_cons, ne_eq, Option.some.injEq]; decide)

/-- The handler of `GET` on a line that ends with a key. -/
theorem udb_handle_get_key (cfg : Config) (db : Store) (kt key after : List Char)
    (hk : KeyToken kt key) :
    udb_handle_get cfg (' ' :: (kt ++ NUL :: after)) db
      = (match db_lookup db key with
          | none => (REPLY_NULL, db)
          | some result => (result ++ "\r\n".toList, db)) := by
  obtain ⟨tok, rest, ht, hn⟩ := g_scanner_get_next_token_key_end kt key after hk
  have hn1 : g_scanner_get_next_token (' ' :: (kt ++ NUL :: after)) = (tok, rest) := by
    have := g_scanner_get_next_token_skip [' '] (kt ++ NUL :: after) (by decide)
    rw [← hn]; exact this
  unfold udb_handle_get
  rw [hn1]
  rcases ht with rfl | rfl <;> rfl

/-- The handler of `DEL` on a line that ends with a key. -/
theorem udb_handle_del_key (cfg : Config) (db : Store) (kt key after : List Char)
    (hk : KeyToken kt key) :
    udb_handle_del cfg (' ' :: (kt ++ NUL :: after)) db = (REPLY_OK, (db_remove db key).2) := by
  obtain ⟨tok, rest, ht, hn⟩ := g_scanner_get_next_token_key_end kt key after hk
  have hn1 : g_scanner_get_next_token (' ' :: (kt ++ NUL :: after)) = (tok, rest) := by
    have := g_scanner_get_next_token_skip [' '] (kt ++ NUL :: after) (by decide)
    rw [← hn]; exact this
  unfold udb_handle_del
  rw [hn1]
  rcases ht with rfl | rfl <;> rfl

/-- The handler of `SET` on a key followed by a blank and more text goes on
with the length check and the value. -/
theorem udb_handle_set_key (cfg : Config) (db : Store) (kt key x : List Char)
    (hk : KeyToken kt key) :
    udb_handle_set cfg (' ' :: (kt ++ ' ' :: x)) db
      = udb_handle_set_value cfg key (' ' :: x) db := by
  obtain ⟨tok, ht, hn⟩ := g_scanner_get_next_token_key kt key (' ' :: x) hk rfl
    (by simp only [List.head?_cons, ne_eq, Option.some.injEq]; decide)
  have hn1 : g_scanner_get_next_token (' ' :: (kt ++ ' ' :: x)) = (tok, ' ' :: x) := by
    have := g_scanner_get_next_token_skip [' '] (kt ++ ' ' :: x) (by decide)
    rw [← hn]; exact this
  unfold udb_handle_set
  rw [hn1]
  rcases ht with rfl | rfl <;> rfl

/-- The line `GET <key>`. -/
theorem process_get_line (cfg : Config) (db : Store) (kt key after : List Char)
    (hk : KeyToken kt key) :
    process_command_line cfg db ("GET ".toList ++ kt ++ NUL :: after)
      = (match db_lookup db key with
          | none => (REPLY_NULL, db)
          | some result => (result ++ "\r\n".toList, db)) := by
  have e : "GET ".toList ++ kt ++ NUL :: after = "GET".toList ++ ' ' :: (kt ++ NUL :: after) := by
    simp
  have h1 := first_token_of_command "GET".toList (kt ++ NUL :: after) (by decide)
  rw [e, process_command_line_get cfg db _ _ _ h1 (by decide)]
  exact udb_handle_get_key cfg db kt key after hk

/-- The line `DEL <key>`. -/
theorem process_del_line (cfg : Config) (db : Store) (kt key after : List Char)
    (hk : KeyToken kt key) :
    process_command_line cfg db ("DEL ".toList ++ kt ++ NUL :: after)
      = (REPLY_OK, (db_remove db key).2) := by
  have e : "DEL ".toList ++ kt ++ NUL :: after = "DEL".toList ++ ' ' :: (kt ++ NUL :: after) := by
    simp
  have h1 := first_token_of_command "DEL".toList (kt ++ NUL :: after) (by decide)
  rw [e, process_command_line_del cfg db _ _ _ h1 (by decide)]
  exact udb_handle_del_key cfg db kt key after hk

/-- The line `SET <key> <more>`. -/
theorem process_set_line (cfg : Config) (db : Store) (kt key x : List Char)
    (hk : KeyToken kt key) :
    process_command_line cfg db ("SET ".toList ++ kt ++ " ".toList ++ x)
      = udb_handle_set_value cfg key (' ' :: x) db := by
  have e : "SET ".toList ++ kt ++ " ".toList ++ x = "SET".toList ++ ' ' :: (kt ++ ' ' :: x) := by
    simp
  have h1 := first_token_of_command "SET".toList (kt ++ ' ' :: x) (by decide)
  rw [e, process_command_line_set cfg db _ _ _ h1 (by decide)]
  exact udb_handle_set_key cfg db kt key x hk

/-- The second half of `SET` on a value written at the end of the line. -/
theorem udb_handle_set_value_token (cfg : Config) (db : Store) (key vt after : List Char)
    (tok : GToken) (hlen : key.length ≤ cfg.UDB_MAX_KEY_LENGTH) (hv : ValueToken vt tok) :
    udb_handle_set_value cfg key (' ' :: (vt ++ NUL :: after)) db
      = (REPLY_OK, (db_insert db key (stored_value cfg tok)).2) := by
  obtain ⟨rest, hn0⟩ := g_scanner_get_next_token_value vt tok after hv
  have hn : g_scanner_get_next_token (' ' :: (vt ++ NUL :: after)) = (tok, rest) := by
    have := g_scanner_get_next_token_skip [' '] (vt ++ NUL :: after) (by decide)
    rw [← hn0]; exact this
  unfold udb_handle_set_value
  rw [if_neg (Nat.not_lt.2 hlen), hn]
  rcases hv.2.2.2 with ⟨v, rfl⟩ | ⟨v, rfl⟩ | ⟨v, rfl⟩ | ⟨v, rfl⟩ <;> rfl

/-- The line `SET <key> <value>`. -/
theorem process_set_value_line (cfg : Config) (db : Store) (kt key vt after : List Char)
    (tok : GToken) (hk : KeyToken kt key) (hlen : key.length ≤ cfg.UDB_MAX_KEY_LENGTH)
    (hv : ValueToken vt tok) :
    process_command_line cfg db ("SET ".toList ++ kt ++ " ".toList ++ vt ++ NUL :: after)
      = (REPLY_OK, (db_insert db key (stored_value cfg tok)).2) := by
  rw [List.append_assoc _ vt, process_set_line cfg db kt key _ hk]
  exact udb_handle_set_value_token cfg db key vt after tok hlen hv

/-- The replies of the second half of `SET` for a key within the limit are
not the reply to a key that is too long. -/
theorem udb_handle_set_value_not_too_long (cfg : Config) (db : Store) (key text : List Char)
    (hlen : key.length ≤ cfg.UDB_MAX_KEY_LENGTH) :
    (udb_handle_set_value cfg key text db).1 ≠ "ERR Key To Long\r\n".toList := by
  unfold udb_handle_set_value
  rw [if_neg (Nat.not_lt.2 hlen)]
  have hok : REPLY_OK ≠ "ERR Key To Long\r\n".toList := by decide
  have hmv : "ERR Missing Value Argument\r\n".toList ≠ "ERR Key To Long\r\n".toList := by
    decide
  have hmal : ∀ tB : GToken,
      "ERR Malformed Value Argument (token=".toList ++ decimal tB.code ++ ")\r\n".toList
        ≠ "ERR Key To Long\r\n".toList := by
    intro tB
    cases tB <;> simp only [GToken.code] <;> decide
  split
  · exact hok
  · exact hok
  · exact hok
  · exact hok
  · exact hmv
  · exact hmal _

/-! ## Handlers by the tokens they read -/

/-- The handler of `SET` after a key token goes on with the length check and
the value. -/
theorem udb_handle_set_of_key (cfg : Config) (db : Store) (text : List Char) (tok : GToken)
    (key text1 : List Char) (h : g_scanner_get_next_token text = (tok, text1))
    (ht : tok = GToken.G_TOKEN_IDENTIFIER key ∨ tok = GToken.G_TOKEN_STRING key) :
    udb_handle_set cfg text db = udb_handle_set_value cfg key text1 db := by
  unfold udb_handle_set
  rw [h]
  rcases ht with rfl | rfl <;> rfl

/-- The second half of `SET` when the next token is a value. -/
theorem udb_handle_set_value_of_token (cfg : Config) (db : Store) (key text : List Char)
    (tok : GToken) (rest : List Char) (hlen : key.length ≤ cfg.UDB_MAX_KEY_LENGTH)
    (h : g_scanner_get_next_token text = (tok, rest))
    (hkind : (∃ v, tok = GToken.G_TOKEN_IDENTIFIER v) ∨ (∃ v, tok = GToken.G_TOKEN_INT v)
      ∨ (∃ v, tok = GToken.G_TOKEN_FLOAT v) ∨ (∃ v, tok = GToken.G_TOKEN_STRING v)) :
    udb_handle_set_value cfg key text db
      = (REPLY_OK, (db_insert db key (stored_value cfg tok)).2) := by
  unfold udb_handle_set_value
  rw [if_neg (Nat.not_lt.2 hlen), h]
  rcases hkind with ⟨v, rfl⟩ | ⟨v, rfl⟩ | ⟨v, rfl⟩ | ⟨v, rfl⟩ <;> rfl

/-- The second half of `SET` when the next token is the end of the input. -/
theorem udb_handle_set_value_of_eof (cfg : Config) (db : Store) (key text rest : List Char)
    (hlen : key.length ≤ cfg.UDB_MAX_KEY_LENGTH)
    (h : g_scanner_get_next_token text = (GToken.G_TOKEN_EOF, rest)) :
    udb_handle_set_value cfg key text db = ("ERR Missing Value Argument\r\n".toList, db) := by
  unfold udb_handle_set_value
  rw [if_neg (Nat.not_lt.2 hlen), h]

/-- The handler of `DEL` after a key token. -/
theorem udb_handle_del_of_key (cfg : Config) (db : Store) (text : List Char) (tok : GToken)
    (key text1 : List Char) (h : g_scanner_get_next_token text = (tok, text1))
    (ht : tok = GToken.G_TOKEN_IDENTIFIER key ∨ tok = GToken.G_TOKEN_STRING key) :
    udb_handle_del cfg text db = (REPLY_OK, (db_remove db key).2) := by
  unfold udb_handle_del
  rw [h]
  rcases ht with rfl | rfl <;> rfl

/-- The handler of `DEL` when the next token is an error. -/
theorem udb_handle_del_of_error (cfg : Config) (db : Store) (text text1 : List Char)
    (h : g_scanner_get_next_token text = (GToken.G_TOKEN_ERROR, text1)) :
    udb_handle_del cfg text db = (reply_missing_key GToken.G_TOKEN_ERROR, db) := by
  unfold udb_handle_del
  rw [h]

/-! ## Claims about replies and dispatch -/

/-- C5 (amended): the reply to every line in every store state ends with
CR LF, and what stands before that CR LF holds no CR and no LF, unless the
reply is the one of a `GET` that found a value: the command word of the line
matches `GET`, the token after it names a key of the store, and the reply is
the value stored under that key, as it is, followed by CR LF.  Such a reply
is one line exactly when the value holds neither CR nor LF. -/
theorem C5_reply_ends_with_crlf (cfg : Config) (db : Store) (line : List Char) :
    (∃ body, (process_command_line cfg db line).1 = body ++ [CR, LF])
      ∧ (OneLine (process_command_line cfg db line).1
          ∨ ∃ cmd text tok text1 key value,
              g_scanner_get_next_token (g_scanner_input_text line)
                = (GToken.G_TOKEN_IDENTIFIER cmd, text)
              ∧ g_ascii_strcasecmp_eq cmd "GET".toList = true
              ∧ g_scanner_get_next_token text = (tok, text1)
              ∧ (tok = GToken.G_TOKEN_IDENTIFIER key ∨ tok = GToken.G_TOKEN_STRING key)
              ∧ db_lookup db key = some value
              ∧ (process_command_line cfg db line).1 = value ++ [CR, LF])
      ∧ (∀ value, (process_command_line cfg db line).1 = value ++ [CR, LF] →
          (OneLine (process_command_line cfg db line).1 ↔ CR ∉ value ∧ LF ∉ value)) := by
  refine ⟨?_, process_command_line_reply cfg db line, ?_⟩
  · rcases process_command_line_reply cfg db line with
      h | ⟨cmd, text, tok, text1, key, value, -, -, -, -, -, h⟩
    · exact oneLine_ends _ h
    · exact ⟨value, h⟩
  · intro value h
    rw [h]
    exact oneLine_append value

/-- C5, counterexample: under every configuration that admits a key of one
byte, and whatever lies behind the two lines in memory, after the line
`SET k "a\nb"` (backslash, `n` inside double quotes) the line `GET k` is
answered with `a`, LF, `b`, CR, LF: a line feed stands before the final
CR LF, so the reply is not one line. -/
theorem C5_counterexample :
    ¬ ∃ (cfg : Config) (a1 a2 : List Char), 1 ≤ cfg.UDB_MAX_KEY_LENGTH
        ∧ OneLine (process_command_line cfg
            (process_command_line cfg []
              ("SET k ".toList ++ [DQUOTE, 'a', BACKSLASH, 'n', 'b', DQUOTE] ++ NUL :: a1)).2
            ("GET k".toList ++ NUL :: a2)).1 := by
  rintro ⟨cfg, a1, a2, h1, h2⟩
  have hk : KeyToken "k".toList "k".toList := ⟨by decide, Or.inl (by decide)⟩
  have hv : ValueToken [DQUOTE, 'a', BACKSLASH, 'n', 'b', DQUOTE]
      (GToken.G_TOKEN_STRING ['a', LF, 'b']) :=
    ⟨by decide, by decide, by decide, Or.inr (Or.inr (Or.inr ⟨_, rfl⟩))⟩
  have e1 := process_set_value_line cfg [] "k".toList "k".toList _ a1 _ hk h1 hv
  have e2 := process_get_line cfg [("k".toList, ['a', LF, 'b'])] "k".toList "k".toList a2 hk
  have e3 : "SET k ".toList ++ [DQUOTE, 'a', BACKSLASH, 'n', 'b', DQUOTE] ++ NUL :: a1
      = "SET ".toList ++ "k".toList ++ " ".toList ++ [DQUOTE, 'a', BACKSLASH, 'n', 'b', DQUOTE]
        ++ NUL :: a1 := rfl
  have e4 : "GET k".toList ++ NUL :: a2 = "GET ".toList ++ "k".toList ++ NUL :: a2 := rfl
  have e5 : (db_insert [] "k".toList
      (stored_value cfg (GToken.G_TOKEN_STRING ['a', LF, 'b']))).2
      = [("k".toList, ['a', LF, 'b'])] := rfl
  rw [e3, e1, e5, e4, e2] at h2
  revert h2
  decide

/-- C6: a line whose first token is an identifier that is none of `GET`,
`SET`, `DEL` under case-insensitive comparison is answered with
`ERR Unknown command: `, that identifier as it was written, CR LF, whatever
follows the identifier, and the store is unchanged. -/
theorem C6_unknown_command (cfg : Config) (db : Store) (line name text : List Char)
    (h : g_scanner_get_next_token (g_scanner_input_text line)
      = (GToken.G_TOKEN_IDENTIFIER name, text))
    (hget : g_ascii_strcasecmp_eq name "GET".toList = false)
    (hset : g_ascii_strcasecmp_eq name "SET".toList = false)
    (hdel : g_ascii_strcasecmp_eq name "DEL".toList = false) :
    process_command_line cfg db line
      = ("ERR Unknown command: ".toList ++ name ++ "\r\n".toList, db) :=
  process_command_line_unknown cfg db line name text h hget hset hdel

/-- C6 at the line `FOO bar` of the specification, with its terminating NUL,
in a store that holds one entry. -/
theorem C6_unknown_command_witness :
    process_command_line sampleConfig [("name".toList, "Alice".toList)]
        ("FOO bar".toList ++ [NUL])
      = ("ERR Unknown command: FOO\r\n".toList, [("name".toList, "Alice".toList)]) :=
  C6_unknown_command sampleConfig [("name".toList, "Alice".toList)] ("FOO bar".toList ++ [NUL])
    "FOO".toList (" bar".toList ++ [NUL]) (by decide) (by decide) (by decide) (by decide)

/-- The argument errors of `SET` by the tokens the scanner reads.  For a line
whose first token is an identifier matching `SET`: (1) when the next token
`tA` is neither an identifier nor a string, the reply is
`ERR Missing KEY (token=<code of tA>)`, with code 0 when `tA` is the end of
the input; (2) when the next token is a key within the length limit and the
token after it is the end of the input, the reply is
`ERR Missing Value Argument`; (3) when such a key is followed by a token `tB`
that is neither identifier, integer, float, string nor the end of the input,
the reply is `ERR Malformed Value Argument (token=<code of tB>)`.  The store
is unchanged in each case.  Which tokens the scanner reads at the end of a
line is another matter, since it reads on behind the line. -/
theorem set_argument_errors_of_tokens (cfg : Config) (db : Store) (line cmd text : List Char)
    (hft : g_scanner_get_next_token (g_scanner_input_text line)
      = (GToken.G_TOKEN_IDENTIFIER cmd, text))
    (hset : g_ascii_strcasecmp_eq cmd "SET".toList = true) :
    (∀ tA text1, g_scanner_get_next_token text = (tA, text1) →
        (∀ k, tA ≠ GToken.G_TOKEN_IDENTIFIER k) → (∀ k, tA ≠ GToken.G_TOKEN_STRING k) →
        process_command_line cfg db line
          = ("ERR Missing KEY (token=".toList ++ decimal tA.code ++ ")\r\n".toList, db))
    ∧ ((g_scanner_get_next_token text).1 = GToken.G_TOKEN_EOF →
        process_command_line cfg db line = ("ERR Missing KEY (token=0)\r\n".toList, db))
    ∧ (∀ tA text1 key, g_scanner_get_next_token text = (tA, text1) →
        (tA = GToken.G_TOKEN_IDENTIFIER key ∨ tA = GToken.G_TOKEN_STRING key) →
        key.length ≤ cfg.UDB_MAX_KEY_LENGTH →
        ((g_scanner_get_next_token text1).1 = GToken.G_TOKEN_EOF →
          process_command_line cfg db line = ("ERR Missing Value Argument\r\n".toList, db))
        ∧ (∀ tB, (g_scanner_get_next_token text1).1 = tB →
            (∀ v, tB ≠ GToken.G_TOKEN_IDENTIFIER v) → (∀ v, tB ≠ GToken.G_TOKEN_INT v) →
            (∀ v, tB ≠ GToken.G_TOKEN_FLOAT v) → (∀ v, tB ≠ GToken.G_TOKEN_STRING v) →
            tB ≠ GToken.G_TOKEN_EOF →
            process_command_line cfg db line
              = ("ERR Malformed Value Argument (token=".toList ++ decimal tB.code
                  ++ ")\r\n".toList, db))) := by
  rw [process_command_line_set cfg db line cmd text hft hset]
  have hA : ∀ tA text1, g_scanner_get_next_token text = (tA, text1) →
      (∀ k, tA ≠ GToken.G_TOKEN_IDENTIFIER k) → (∀ k, tA ≠ GToken.G_TOKEN_STRING k) →
      udb_handle_set cfg text db
        = ("ERR Missing KEY (token=".toList ++ decimal tA.code ++ ")\r\n".toList, db) := by
    intro tA text1 h1 h2 h3
    unfold udb_handle_set
    rw [h1]
    cases tA <;> first | rfl | exact absurd rfl (h2 _) | exact absurd rfl (h3 _)
  refine ⟨hA, ?_, ?_⟩
  · intro h
    rcases hn : g_scanner_get_next_token text with ⟨tA, text1⟩
    rw [hn] at h
    simp only at h
    subst h
    exact hA _ text1 hn (fun k h => by cases h) (fun k h => by cases h)
  · intro tA text1 key h1 h2 h3
    have hk : ¬ key.length > cfg.UDB_MAX_KEY_LENGTH := Nat.not_lt.2 h3
    have hv : udb_handle_set cfg text db = udb_handle_set_value cfg key text1 db := by
      unfold udb_handle_set
      rw [h1]
      rcases h2 with rfl | rfl <;> rfl
    rw [hv]
    unfold udb_handle_set_value
    rw [if_neg hk]
    constructor
    · intro h
      rcases hn : g_scanner_get_next_token text1 with ⟨tB, text2⟩
      rw [hn] at h
      simp only at h
      subst h
      rfl
    · intro tB h n1 n2 n3 n4 n5
      rcases hn : g_scanner_get_next_token text1 with ⟨tB1, text2⟩
      rw [hn] at h
      simp only at h
      subst h
      cases tB1 <;> first
        | rfl
        | exact absurd rfl (n1 _)
        | exact absurd rfl (n2 _)
        | exact absurd rfl (n3 _)
        | exact absurd rfl (n4 _)
        | exact absurd rfl n5

/-- C8, the failing input.  The line `SET k` ends after a key of one byte.  In
memory its terminating NUL follows and, behind that, bytes that are no part
of the line, here ` 77`.  The scanner was given the length `-1`: it reads the
NUL into the identifier `k` and takes the value from behind the line, so the
reply is `OK` and `77` is stored under `k`, where the claim has
`ERR Missing Value Argument`; that is the reply to the same line when a NUL
lies behind its terminator.  Likewise the line `SET k "abc\`, whose value is
a string that does not end, is answered `OK` and stores `abcdef` when `def"`
lies behind its terminator, where the claim has
`ERR Malformed Value Argument (token=257)`, the reply when a NUL lies
there. -/
theorem C8_set_reads_behind_line_end (cfg : Config) (db : Store)
    (h : 1 ≤ cfg.UDB_MAX_KEY_LENGTH) :
    cstr ("SET k".toList ++ NUL :: " 77".toList ++ [NUL]) = "SET k".toList
      ∧ process_command_line cfg db ("SET k".toList ++ NUL :: " 77".toList ++ [NUL])
          = (REPLY_OK, (db_insert db "k".toList "77".toList).2)
      ∧ process_command_line cfg db ("SET k".toList ++ [NUL, NUL])
          = ("ERR Missing Value Argument\r\n".toList, db)
      ∧ cstr ("SET k ".toList
            ++ [DQUOTE, 'a', 'b', 'c', BACKSLASH, NUL, 'd', 'e', 'f', DQUOTE, NUL])
          = "SET k ".toList ++ [DQUOTE, 'a', 'b', 'c', BACKSLASH]
      ∧ process_command_line cfg db ("SET k ".toList
            ++ [DQUOTE, 'a', 'b', 'c', BACKSLASH, NUL, 'd', 'e', 'f', DQUOTE, NUL])
          = (REPLY_OK, (db_insert db "k".toList "abcdef".toList).2)
      ∧ process_command_line cfg db ("SET k ".toList
            ++ [DQUOTE, 'a', 'b', 'c', BACKSLASH, NUL, NUL])
          = ("ERR Malformed Value Argument (token=257)\r\n".toList, db) := by
  have hlen : "k".toList.length ≤ cfg.UDB_MAX_KEY_LENGTH := h
  refine ⟨by decide, ?_, ?_, by decide, ?_, ?_⟩
  · rw [process_command_line_set cfg db _ "SET".toList
        (" k".toList ++ NUL :: " 77".toList ++ [NUL]) (by decide) (by decide),
      udb_handle_set_of_key cfg db _ (GToken.G_TOKEN_IDENTIFIER "k".toList) "k".toList
        (" 77".toList ++ [NUL]) (by decide) (Or.inl rfl)]
    exact udb_handle_set_value_of_token cfg db _ _ (GToken.G_TOKEN_INT 77) [NUL] hlen
      (by decide) (Or.inr (Or.inl ⟨_, rfl⟩))
  · rw [process_command_line_set cfg db _ "SET".toList (" k".toList ++ [NUL, NUL])
        (by decide) (by decide),
      udb_handle_set_of_key cfg db _ (GToken.G_TOKEN_IDENTIFIER "k".toList) "k".toList
        [NUL] (by decide) (Or.inl rfl)]
    exact udb_handle_set_value_of_eof cfg db _ _ [] hlen (by decide)
  · rw [process_command_line_set cfg db _ "SET".toList
        (" k ".toList ++ [DQUOTE, 'a', 'b', 'c', BACKSLASH, NUL, 'd', 'e', 'f', DQUOTE, NUL])
        (by decide) (by decide),
      udb_handle_set_of_key cfg db _ (GToken.G_TOKEN_IDENTIFIER "k".toList) "k".toList
        (" ".toList ++ [DQUOTE, 'a', 'b', 'c', BACKSLASH, NUL, 'd', 'e', 'f', DQUOTE, NUL])
        (by decide) (Or.inl rfl)]
    exact udb_handle_set_value_of_token cfg db _ _ (GToken.G_TOKEN_STRING "abcdef".toList)
      [NUL] hlen (by decide) (Or.inr (Or.inr (Or.inr ⟨_, rfl⟩)))
  · rw [process_command_line_set cfg db _ "SET".toList
        (" k ".toList ++ [DQUOTE, 'a', 'b', 'c', BACKSLASH, NUL, NUL])
        (by decide) (by decide),
      udb_handle_set_of_key cfg db _ (GToken.G_TOKEN_IDENTIFIER "k".toList) "k".toList
        (" ".toList ++ [DQUOTE, 'a', 'b', 'c', BACKSLASH, NUL, NUL])
        (by decide) (Or.inl rfl)]
    have hB : g_scanner_get_next_token
        (" ".toList ++ [DQUOTE, 'a', 'b', 'c', BACKSLASH, NUL, NUL])
        = (GToken.G_TOKEN_ERROR, []) := by decide
    unfold udb_handle_set_value
    rw [if_neg (Nat.not_lt.2 hlen), hB]
    rfl

/-- C8 at the failing input, with an empty store and a key limit of 64
bytes: `SET k`, NUL, ` 77` is answered `OK` and stores `77` under `k`. -/
theorem C8_set_reads_behind_line_end_witness :
    process_command_line sampleConfig [] ("SET k".toList ++ NUL :: " 77".toList ++ [NUL])
      = ("OK\r\n".toList, [("k".toList, "77".toList)]) :=
  (C8_set_reads_behind_line_end sampleConfig [] (by decide)).2.1

/-! ## Claims about `SET`, `GET` and `DEL` lines -/

/-- C2: for every store and every key written as an identifier or a quoted
string, whether the key is present or not, the line `DEL k` is answered
`OK` (CR LF) and the line `GET k` right after it `NULL` (CR LF); `DEL k`
sent again is answered `OK` again.  Each line stands in memory with its
terminating NUL and any bytes behind it. -/
theorem C2_del_then_get (cfg : Config) (db : Store) (kt key a1 a2 a3 : List Char)
    (hk : KeyToken kt key) :
    process_command_line cfg db ("DEL ".toList ++ kt ++ NUL :: a1)
        = (REPLY_OK, (db_remove db key).2)
      ∧ process_command_line cfg (db_remove db key).2 ("GET ".toList ++ kt ++ NUL :: a2)
          = (REPLY_NULL, (db_remove db key).2)
      ∧ (process_command_line cfg (db_remove db key).2 ("DEL ".toList ++ kt ++ NUL :: a3)).1
          = REPLY_OK := by
  refine ⟨process_del_line cfg db kt key a1 hk, ?_, ?_⟩
  · rw [process_get_line cfg _ kt key a2 hk, db_lookup_remove, if_pos rfl]
  · rw [process_del_line cfg _ kt key a3 hk]

/-- C2 at the key `name` of the specification, present in the store. -/
theorem C2_del_then_get_witness :
    process_command_line sampleConfig [("name".toList, "Alice".toList)]
        ("DEL name".toList ++ [NUL])
        = ("OK\r\n".toList, [])
      ∧ process_command_line sampleConfig [] ("GET name".toList ++ [NUL])
          = ("NULL\r\n".toList, [])
      ∧ (process_command_line sampleConfig [] ("DEL name".toList ++ [NUL])).1
          = "OK\r\n".toList :=
  C2_del_then_get sampleConfig [("name".toList, "Alice".toList)] "name".toList "name".toList
    [] [] [] ⟨by decide, Or.inl (by decide)⟩

/-- C3: for every store, every key written as an identifier or a quoted
string and every text `x` after it, the line `SET k x` is answered
`ERR Key To Long` (CR LF) and leaves the store as it is when the key is
longer than `UDB_MAX_KEY_LENGTH`; a key of at most that length, so one of
exactly that length, is not answered so. -/
theorem C3_key_too_long (cfg : Config) (db : Store) (kt key x : List Char)
    (hk : KeyToken kt key) :
    (key.length > cfg.UDB_MAX_KEY_LENGTH →
        process_command_line cfg db ("SET ".toList ++ kt ++ " ".toList ++ x)
          = ("ERR Key To Long\r\n".toList, db))
      ∧ (key.length ≤ cfg.UDB_MAX_KEY_LENGTH →
          (process_command_line cfg db ("SET ".toList ++ kt ++ " ".toList ++ x)).1
            ≠ "ERR Key To Long\r\n".toList) := by
  rw [process_set_line cfg db kt key x hk]
  constructor
  · intro h
    unfold udb_handle_set_value
    rw [if_pos h]
  · intro h
    exact udb_handle_set_value_not_too_long cfg db key _ h

/-- C3 with a limit of four bytes: the key `abcde` is refused and the store
stays as it was, the key `abcd` is accepted.  The lines are followed by two
NULs, as a line is that was sent with CR LF at its end. -/
theorem C3_key_too_long_witness :
    process_command_line ⟨4, "udb".toList, fun t => t⟩ [("abcd".toList, "1".toList)]
        ("SET abcde x".toList ++ [NUL, NUL])
        = ("ERR Key To Long\r\n".toList, [("abcd".toList, "1".toList)])
      ∧ (process_command_line ⟨4, "udb".toList, fun t => t⟩ [("abcd".toList, "1".toList)]
          ("SET abcd x".toList ++ [NUL, NUL])).1 ≠ "ERR Key To Long\r\n".toList :=
  ⟨(C3_key_too_long ⟨4, "udb".toList, fun t => t⟩ [("abcd".toList, "1".toList)]
      "abcde".toList "abcde".toList ("x".toList ++ [NUL, NUL])
      ⟨by decide, Or.inl (by decide)⟩).1 (by decide),
    (C3_key_too_long ⟨4, "udb".toList, fun t => t⟩ [("abcd".toList, "1".toList)]
      "abcd".toList "abcd".toList ("x".toList ++ [NUL, NUL])
      ⟨by decide, Or.inl (by decide)⟩).2 (by decide)⟩

/-! ## Case of the command word -/

/-- A byte that `g_ascii_tolower` maps to a lower-case letter is a letter. -/
theorem isLetter_of_tolower (a : Char) (h : isLowerChar (g_ascii_tolower a) = true) :
    isLowerChar a = true ∨ isUpperChar a = true := by
  unfold g_ascii_tolower at h
  split_ifs at h with hu
  · right
    simp only [isUpperChar, Bool.and_eq_true, decide_eq_true_eq]
    exact hu
  · exact Or.inl h

/-- A word that matches a word of lower- or upper-case letters without
regard to case is the text of an identifier and holds no NUL. -/
theorem identifier_of_strcasecmp (w cmd : List Char)
    (hcmd : ∀ c ∈ cmd, isLowerChar (g_ascii_tolower c) = true) (hne : cmd ≠ [])
    (h : g_ascii_strcasecmp_eq w cmd = true) :
    isIdentifierText w = true ∧ NUL ∉ w := by
  simp only [g_ascii_strcasecmp_eq, beq_iff_eq] at h
  have hall : ∀ a ∈ w, isLowerChar a = true ∨ isUpperChar a = true := by
    intro a ha
    apply isLetter_of_tolower
    have : g_ascii_tolower a ∈ cmd.map g_ascii_tolower := by
      rw [← h]; exact List.mem_map_of_mem _ ha
    obtain ⟨c, hc, hce⟩ := List.mem_map.1 this
    rw [← hce]; exact hcmd c hc
  constructor
  · cases w with
    | nil =>
      exfalso
      cases cmd with
      | nil => exact hne rfl
      | cons c t => simp at h
    | cons a r =>
      simp only [isIdentifierText, Bool.and_eq_true, List.all_eq_true]
      constructor
      · rcases hall a (List.mem_cons_self _ _) with h1 | h1 <;> simp [isIdentifierFirst, h1]
      · intro x hx
        rcases hall x (List.mem_cons_of_mem _ hx) with h1 | h1 <;> simp [isIdentifierNth, h1]
  · intro hn
    rcases hall NUL hn with h1 | h1 <;> revert h1 <;> decide

/-- C7: command names are matched without regard to case.  For every store
and every line made of skipped bytes, a command word and a rest that does
not continue the word, writing the word in any mix of upper and lower case
(`get`, `Get`, `sEt`, `del`, ...) gives the same reply and the same store as
writing it `GET`, `SET` or `DEL`. -/
theorem C7_case_insensitive (cfg : Config) (db : Store) (pre w cmd rest : List Char)
    (hpre : ∀ c ∈ pre, isSkipChar c = true)
    (hcmd : cmd = "GET".toList ∨ cmd = "SET".toList ∨ cmd = "DEL".toList)
    (hw : g_ascii_strcasecmp_eq w cmd = true)
    (hrest : continuesIdentifier rest = false) :
    process_command_line cfg db (pre ++ w ++ rest)
      = process_command_line cfg db (pre ++ cmd ++ rest) := by
  have hletters : ∀ c ∈ cmd, isLowerChar (g_ascii_tolower c) = true := by
    rcases hcmd with rfl | rfl | rfl <;> decide
  have hne : cmd ≠ [] := by rcases hcmd with rfl | rfl | rfl <;> decide
  have hcc : g_ascii_strcasecmp_eq cmd cmd = true := by simp [g_ascii_strcasecmp_eq]
  have hlen3 : cmd.length = 3 := by rcases hcmd with rfl | rfl | rfl <;> rfl
  have first : ∀ u : List Char, g_ascii_strcasecmp_eq u cmd = true →
      g_scanner_get_next_token (g_scanner_input_text (pre ++ u ++ rest))
        = (GToken.G_TOKEN_IDENTIFIER u, rest) := by
    intro u hu
    obtain ⟨hid, -⟩ := identifier_of_strcasecmp u cmd hletters hne hu
    have hul : u.length = 3 := by
      simp only [g_ascii_strcasecmp_eq, beq_iff_eq] at hu
      have := congrArg List.length hu
      rw [List.length_map, List.length_map, hlen3] at this
      exact this
    unfold g_scanner_input_text
    rw [List.append_assoc, g_scanner_get_next_token_skip _ _ hpre]
    exact g_scanner_get_next_token_identifier u _ hid hrest
      (fun h1 => absurd (hul.symm.trans h1) (by decide))
  have h1 := first w hw
  have h2 := first cmd hcc
  rcases hcmd with rfl | rfl | rfl
  · rw [process_command_line_get cfg db _ _ _ h1 hw,
      process_command_line_get cfg db _ _ _ h2 hcc]
  · rw [process_command_line_set cfg db _ _ _ h1 hw,
      process_command_line_set cfg db _ _ _ h2 hcc]
  · rw [process_command_line_del cfg db _ _ _ h1 hw,
      process_command_line_del cfg db _ _ _ h2 hcc]

/-- C7 at the line `sEt name Alice`: it does what `SET name Alice` does. -/
theorem C7_case_insensitive_witness :
    process_command_line sampleConfig [] ("sEt name Alice".toList ++ [NUL])
      = process_command_line sampleConfig [] ("SET name Alice".toList ++ [NUL]) :=
  C7_case_insensitive sampleConfig [] [] "sEt".toList "SET".toList
    (" name Alice".toList ++ [NUL]) (by decide) (by decide) (by decide) (by decide)

/-! ## Frame -/

/-- The frame of `process_command_line` by the tokens the scanner reads.  For
every store and line: (1) the value found under a key changes only if the
command word matches `SET` or `DEL`, the token after it names that key and
the reply is `OK` (CR LF); (2) a line whose command word matches `GET` leaves
the store as it is; (3) a line answered with a reply that starts with `ERR `
leaves the store as it is.  Whether the token after the command word is part
of the line is another matter, since the scanner reads on behind the line. -/
theorem process_command_line_frame (cfg : Config) (db : Store) (line : List Char) :
    (∀ key, db_lookup (process_command_line cfg db line).2 key ≠ db_lookup db key →
        (process_command_line cfg db line).1 = REPLY_OK
          ∧ ∃ cmd text tok text1,
              g_scanner_get_next_token (g_scanner_input_text line)
                = (GToken.G_TOKEN_IDENTIFIER cmd, text)
              ∧ (g_ascii_strcasecmp_eq cmd "SET".toList = true
                  ∨ g_ascii_strcasecmp_eq cmd "DEL".toList = true)
              ∧ g_scanner_get_next_token text = (tok, text1)
              ∧ (tok = GToken.G_TOKEN_IDENTIFIER key ∨ tok = GToken.G_TOKEN_STRING key))
      ∧ ((∃ cmd text, g_scanner_get_next_token (g_scanner_input_text line)
              = (GToken.G_TOKEN_IDENTIFIER cmd, text)
            ∧ g_ascii_strcasecmp_eq cmd "GET".toList = true) →
          (process_command_line cfg db line).2 = db)
      ∧ ((process_command_line cfg db line).1.take 4 = "ERR ".toList →
          (process_command_line cfg db line).2 = db) := by
  refine ⟨?_, ?_, ?_⟩
  · intro key hne
    rcases process_command_line_cases cfg db line with
      h | ⟨cmd, text, tok, text1, k, h1, h2, h3, h4, h5⟩
    · rw [h] at hne
      exact absurd rfl hne
    · have hk : key = k := by
        by_contra hkk
        rcases h5 with ⟨-, v, h5⟩ | ⟨-, h5⟩
        · rw [h5, db_lookup_insert, if_neg hkk] at hne
          exact hne rfl
        · rw [h5, db_lookup_remove, if_neg hkk] at hne
          exact hne rfl
      subst hk
      refine ⟨h4, cmd, text, tok, text1, h1, ?_, h2, h3⟩
      rcases h5 with ⟨h5, -⟩ | ⟨h5, -⟩
      · exact Or.inl h5
      · exact Or.inr h5
  · rintro ⟨cmd, text, h1, h2⟩
    rw [process_command_line_get cfg db line cmd text h1 h2]
    exact udb_handle_get_store cfg text db
  · intro herr
    rcases process_command_line_cases cfg db line with
      h | ⟨cmd, text, tok, text1, k, h1, h2, h3, h4, h5⟩
    · exact h
    · rw [h4] at herr
      exact absurd herr (by decide)

/-- C10, the failing input.  The line `DEL "ab\` names no key: its argument
is a string that does not end.  In memory its terminating NUL follows and,
behind that, bytes that are no part of the line, here `cd"`.  The scanner
was given the length `-1`: after the backslash it drops the NUL and reads on
behind the line, the token is the string `abcd`, the reply is `OK` and the
key `abcd` is removed from the store, a key the line does not name.  With a
NUL behind the terminator the same line is answered
`ERR Missing KEY (token=257)` and the store stays as it is. -/
theorem C10_del_reads_key_behind_line_end (cfg : Config) (db : Store) :
    cstr ("DEL ".toList ++ [DQUOTE, 'a', 'b', BACKSLASH, NUL, 'c', 'd', DQUOTE, NUL])
        = "DEL ".toList ++ [DQUOTE, 'a', 'b', BACKSLASH]
      ∧ process_command_line cfg db
          ("DEL ".toList ++ [DQUOTE, 'a', 'b', BACKSLASH, NUL, 'c', 'd', DQUOTE, NUL])
          = (REPLY_OK, (db_remove db "abcd".toList).2)
      ∧ db_lookup (("abcd".toList, "1".toList) :: db) "abcd".toList = some "1".toList
      ∧ db_lookup (process_command_line cfg (("abcd".toList, "1".toList) :: db)
          ("DEL ".toList ++ [DQUOTE, 'a', 'b', BACKSLASH, NUL, 'c', 'd', DQUOTE, NUL])).2
          "abcd".toList = none
      ∧ process_command_line cfg db ("DEL ".toList ++ [DQUOTE, 'a', 'b', BACKSLASH, NUL, NUL])
          = ("ERR Missing KEY (token=257)\r\n".toList, db) := by
  have hdel : ∀ db1 : Store, process_command_line cfg db1
      ("DEL ".toList ++ [DQUOTE, 'a', 'b', BACKSLASH, NUL, 'c', 'd', DQUOTE, NUL])
      = (REPLY_OK, (db_remove db1 "abcd".toList).2) := by
    intro db1
    rw [process_command_line_del cfg db1 _ "DEL".toList
      (" ".toList ++ [DQUOTE, 'a', 'b', BACKSLASH, NUL, 'c', 'd', DQUOTE, NUL])
      (by decide) (by decide)]
    exact udb_handle_del_of_key cfg db1 _ (GToken.G_TOKEN_STRING "abcd".toList) _ [NUL]
      (by decide) (Or.inr rfl)
  refine ⟨by decide, hdel db, ?_, ?_, ?_⟩
  · simp [db_lookup]
  · rw [hdel, db_lookup_remove, if_pos rfl]
  · rw [process_command_line_del cfg db _ "DEL".toList
      (" ".toList ++ [DQUOTE, 'a', 'b', BACKSLASH, NUL, NUL]) (by decide) (by decide)]
    exact udb_handle_del_of_error cfg db _ [] (by decide)

/-! ## Startup -/

/-- `main` goes on after `db_load_from_file` exactly when there is no error
or the code of the error is 4, whatever its domain. -/
theorem startup_running_iff (cfg : Config) (env : KeyFileEnv) (file : SnapshotFile) :
    (∃ db, startup cfg env (some file) = Startup.running db)
      ↔ ∀ e, (db_load_from_file cfg env file []).2 = some e → e.code = 4 := by
  have key : ∀ r, db_load_from_file cfg env file [] = r →
      ((∃ db, startup cfg env (some file) = Startup.running db)
        ↔ ∀ e, r.2 = some e → e.code = 4) := by
    intro r hr
    simp only [startup, hr]
    obtain ⟨db, _ | e⟩ := r
    · simp
    · by_cases hc : e.code = 4
      · simp [G_FILE_ERROR_NOENT, hc]
      · simp [G_FILE_ERROR_NOENT, hc]
  exact key _ rfl

/-- C9, the failing input: a snapshot file that exists and is empty (what
`db_save_to_file` writes for an empty store), so that it has no section
`UDB_DB_SECTION`.  `db_load_from_file` reports the key-file error
`G_KEY_FILE_ERROR_GROUP_NOT_FOUND`, which is not the I/O failure
`G_FILE_ERROR_NOENT`; its code is 4 as well, `main` compares codes only, and
startup goes on with an empty store instead of aborting.  The same happens
for a file whose first line is a key-value pair, which does not even parse. -/
theorem C9_group_not_found_is_ignored (cfg : Config) (env : KeyFileEnv) :
    db_load_from_file cfg env (SnapshotFile.regular []) []
        = ([], some ⟨GErrorDomain.G_KEY_FILE_ERROR, G_KEY_FILE_ERROR_GROUP_NOT_FOUND⟩)
      ∧ startup cfg env (some (SnapshotFile.regular [])) = Startup.running []
      ∧ (⟨GErrorDomain.G_KEY_FILE_ERROR, G_KEY_FILE_ERROR_GROUP_NOT_FOUND⟩ : GError)
          ≠ ⟨GErrorDomain.G_FILE_ERROR, G_FILE_ERROR_NOENT⟩
      ∧ db_load_from_file cfg env (SnapshotFile.regular "x=1\n".toList) []
          = ([], some ⟨GErrorDomain.G_KEY_FILE_ERROR, G_KEY_FILE_ERROR_GROUP_NOT_FOUND⟩)
      ∧ startup cfg env (some (SnapshotFile.regular "x=1\n".toList)) = Startup.running [] := by
  refine ⟨rfl, rfl, by decide, rfl, rfl⟩

/-! ## Escaping of values in a key file -/

/-- One step of reading a raw value. -/
theorem parse_value_as_string_unfold (c : Char) (rest : List Char) :
    g_key_file_parse_value_as_string (c :: rest)
      = if c = BACKSLASH then
          match rest with
          | [] => []
          | e :: rest1 =>
            if e = 's' then ' ' :: g_key_file_parse_value_as_string rest1
            else if e = 'n' then LF :: g_key_file_parse_value_as_string rest1
            else if e = 't' then TAB :: g_key_file_parse_value_as_string rest1
            else if e = 'r' then CR :: g_key_file_parse_value_as_string rest1
            else if e = BACKSLASH then BACKSLASH :: g_key_file_parse_value_as_string rest1
            else BACKSLASH :: e :: g_key_file_parse_value_as_string rest1
        else c :: g_key_file_parse_value_as_string rest := by
  conv_lhs => unfold g_key_file_parse_value_as_string

/-- One step of escaping a value. -/
theorem parse_string_as_value_unfold (lead : Bool) (c : Char) (rest : List Char) :
    g_key_file_parse_string_as_value lead (c :: rest)
      = if c = ' ' then
          if lead then BACKSLASH :: 's' :: g_key_file_parse_string_as_value lead rest
          else ' ' :: g_key_file_parse_string_as_value lead rest
        else if c = TAB then
          if lead then BACKSLASH :: 't' :: g_key_file_parse_string_as_value lead rest
          else TAB :: g_key_file_parse_string_as_value lead rest
        else if c = LF then BACKSLASH :: 'n' :: g_key_file_parse_string_as_value lead rest
        else if c = CR then BACKSLASH :: 'r' :: g_key_file_parse_string_as_value lead rest
        else if c = BACKSLASH then
          BACKSLASH :: BACKSLASH :: g_key_file_parse_string_as_value false rest
        else c :: g_key_file_parse_string_as_value false rest := by
  conv_lhs => unfold g_key_file_parse_string_as_value

/-- Reading a byte that is no backslash. -/
theorem parse_value_as_string_cons (c : Char) (rest : List Char) (h : c ≠ BACKSLASH) :
    g_key_file_parse_value_as_string (c :: rest)
      = c :: g_key_file_parse_value_as_string rest := by
  rw [parse_value_as_string_unfold, if_neg h]

/-- Reading an escape. -/
theorem parse_value_as_string_escape (e : Char) (rest : List Char) :
    g_key_file_parse_value_as_string (BACKSLASH :: e :: rest)
      = (if e = 's' then ' ' :: g_key_file_parse_value_as_string rest
        else if e = 'n' then LF :: g_key_file_parse_value_as_string rest
        else if e = 't' then TAB :: g_key_file_parse_value_as_string rest
        else if e = 'r' then CR :: g_key_file_parse_value_as_string rest
        else if e = BACKSLASH then BACKSLASH :: g_key_file_parse_value_as_string rest
        else BACKSLASH :: e :: g_key_file_parse_value_as_string rest) := by
  rw [parse_value_as_string_unfold, if_pos rfl]

/-- Reading back an escaped value gives the value. -/
theorem parse_value_as_string_parse_string_as_value (lead : Bool) (v : List Char) :
    g_key_file_parse_value_as_string (g_key_file_parse_string_as_value lead v) = v := by
  induction v generalizing lead with
  | nil => rfl
  | cons c rest ih =>
    unfold g_key_file_parse_string_as_value
    by_cases h1 : c = ' '
    · subst h1
      cases lead
      · rw [if_pos rfl, if_neg (by decide), parse_value_as_string_cons _ _ (by decide), ih]
      · rw [if_pos rfl, if_pos rfl, parse_value_as_string_escape, if_pos rfl, ih]
    rw [if_neg h1]
    by_cases h2 : c = TAB
    · subst h2
      cases lead
      · rw [if_pos rfl, if_neg (by decide), parse_value_as_string_cons _ _ (by decide), ih]
      · rw [if_pos rfl, if_pos rfl, parse_value_as_string_escape, if_neg (by decide),
          if_neg (by decide), if_pos rfl, ih]
    rw [if_neg h2]
    by_cases h3 : c = LF
    · subst h3
      rw [if_pos rfl, parse_value_as_string_escape, if_neg (by decide), if_pos rfl, ih]
    rw [if_neg h3]
    by_cases h4 : c = CR
    · subst h4
      rw [if_pos rfl, parse_value_as_string_escape, if_neg (by decide), if_neg (by decide),
        if_neg (by decide), if_pos rfl, ih]
    rw [if_neg h4]
    by_cases h5 : c = BACKSLASH
    · subst h5
      rw [if_pos rfl, parse_value_as_string_escape, if_neg (by decide), if_neg (by decide),
        if_neg (by decide), if_neg (by decide), if_pos rfl, ih]
    · rw [if_neg h5, parse_value_as_string_cons _ _ h5, ih]

/-- The escaped value starts with a backslash and a letter, or with the
first byte of the value when that byte needs no escape. -/
theorem parse_string_as_value_cons (lead : Bool) (a : Char) (rest : List Char) :
    (∃ e lead1, (e = 's' ∨ e = 't' ∨ e = 'n' ∨ e = 'r' ∨ e = BACKSLASH)
        ∧ (a = ' ' ∨ a = TAB ∨ a = LF ∨ a = CR ∨ a = BACKSLASH)
        ∧ g_key_file_parse_string_as_value lead (a :: rest)
          = BACKSLASH :: e :: g_key_file_parse_string_as_value lead1 rest)
      ∨ (∃ lead1, a ≠ LF ∧ a ≠ CR ∧ a ≠ BACKSLASH ∧ (lead = true → a ≠ ' ' ∧ a ≠ TAB)
        ∧ g_key_file_parse_string_as_value lead (a :: rest)
          = a :: g_key_file_parse_string_as_value lead1 rest) := by
  rw [parse_string_as_value_unfold]
  by_cases h1 : a = ' '
  · subst h1
    cases lead
    · exact Or.inr ⟨false, by decide, by decide, by decide, by simp, by simp⟩
    · exact Or.inl ⟨'s', true, by simp, by simp, by simp⟩
  by_cases h2 : a = TAB
  · subst h2
    cases lead
    · exact Or.inr ⟨false, by decide, by decide, by decide, by simp, by
        rw [if_neg (by decide), if_pos rfl]; simp⟩
    · exact Or.inl ⟨'t', true, by simp, by simp, by
        rw [if_neg (by decide), if_pos rfl]; simp⟩
  by_cases h3 : a = LF
  · subst h3
    exact Or.inl ⟨'n', lead, by simp, by simp, by
      rw [if_neg (by decide), if_neg (by decide), if_pos rfl]⟩
  by_cases h4 : a = CR
  · subst h4
    exact Or.inl ⟨'r', lead, by simp, by simp, by
      rw [if_neg (by decide), if_neg (by decide), if_neg (by decide), if_pos rfl]⟩
  by_cases h5 : a = BACKSLASH
  · subst h5
    exact Or.inl ⟨BACKSLASH, false, by simp, by simp, by
      rw [if_neg (by decide), if_neg (by decide), if_neg (by decide), if_neg (by decide),
        if_pos rfl]⟩
  · exact Or.inr ⟨false, h3, h4, h5, fun _ => ⟨h1, h2⟩, by
      rw [if_neg h1, if_neg h2, if_neg h3, if_neg h4, if_neg h5]⟩

/-- An escaped value holds neither line feed nor carriage return. -/
theorem parse_string_as_value_no_newline (lead : Bool) (v : List Char) :
    ∀ c ∈ g_key_file_parse_string_as_value lead v, c ≠ LF ∧ c ≠ CR := by
  induction v generalizing lead with
  | nil => intro c hc; simp [g_key_file_parse_string_as_value] at hc
  | cons a rest ih =>
    intro c hc
    rcases parse_string_as_value_cons lead a rest with
      ⟨e, lead1, he, -, heq⟩ | ⟨lead1, h3, h4, -, -, heq⟩
    · rw [heq] at hc
      simp only [List.mem_cons] at hc
      rcases hc with rfl | rfl | hc
      · decide
      · rcases he with rfl | rfl | rfl | rfl | rfl <;> decide
      · exact ih _ c hc
    · rw [heq] at hc
      simp only [List.mem_cons] at hc
      rcases hc with rfl | hc
      · exact ⟨h3, h4⟩
      · exact ih _ c hc

/-- An escaped value does not start with white space unless the value starts
with a form feed. -/
theorem parse_string_as_value_head (v : List Char)
    (h : v.head? ≠ some (Char.ofNat 12)) :
    ∀ c, (g_key_file_parse_string_as_value true v).head? = some c →
      g_ascii_isspace c = false := by
  cases v with
  | nil => intro c hc; simp [g_key_file_parse_string_as_value] at hc
  | cons a rest =>
    intro c hc
    rcases parse_string_as_value_cons true a rest with
      ⟨e, lead1, -, -, heq⟩ | ⟨lead1, h3, h4, -, h12, heq⟩
    · rw [heq] at hc
      simp only [List.head?_cons, Option.some.injEq] at hc
      subst hc
      decide
    · rw [heq] at hc
      simp only [List.head?_cons, Option.some.injEq] at hc
      subst hc
      simp only [List.head?_cons, ne_eq, Option.some.injEq] at h
      simp only [g_ascii_isspace, Bool.or_eq_false_iff, beq_eq_false_iff_ne, ne_eq]
      exact ⟨⟨⟨⟨(h12 rfl).1, (h12 rfl).2⟩, h3⟩, h4⟩, h⟩

/-! ## UTF-8 and escaping -/

/-- One step of `g_utf8_validate`. -/
theorem g_utf8_validate_unfold (b : Char) (rest : List Char) :
    g_utf8_validate (b :: rest)
      = if b.toNat < 128 then g_utf8_validate rest
        else
          match rest with
          | [] => false
          | c1 :: rest1 =>
            if utf8_two b c1 then g_utf8_validate rest1
            else
              match rest1 with
              | [] => false
              | c2 :: rest2 =>
                if utf8_three b c1 c2 then g_utf8_validate rest2
                else
                  match rest2 with
                  | [] => false
                  | c3 :: rest3 =>
                    if utf8_four b c1 c2 c3 then g_utf8_validate rest3 else false := by
  conv_lhs => unfold g_utf8_validate

/-- An ASCII byte is valid on its own. -/
theorem g_utf8_validate_ascii (b : Char) (rest : List Char) (h : b.toNat < 128) :
    g_utf8_validate (b :: rest) = g_utf8_validate rest := by
  rw [g_utf8_validate_unfold, if_pos h]

/-- A lead byte followed by a byte that is no continuation byte is not
valid. -/
theorem g_utf8_validate_second (b x : Char) (t : List Char) (hb : ¬ b.toNat < 128)
    (hx : isContinuationByte x = false) : g_utf8_validate (b :: x :: t) = false := by
  rw [g_utf8_validate_unfold, if_neg hb]
  have h2 : utf8_two b x = false := by simp [utf8_two, hx]
  simp only [h2]
  cases t with
  | nil => rfl
  | cons c2 rest2 =>
    have h3 : utf8_three b x c2 = false := by simp [utf8_three, hx]
    simp only [h3]
    cases rest2 with
    | nil => rfl
    | cons c3 rest3 =>
      have h4 : utf8_four b x c2 c3 = false := by simp [utf8_four, hx]
      simp only [h4]
      rfl

/-- A lead byte and a byte that do not make a two-byte character, followed by
a byte that is no continuation byte, are not valid. -/
theorem g_utf8_validate_third (b c1 x : Char) (t : List Char) (hb : ¬ b.toNat < 128)
    (h2 : utf8_two b c1 = false) (hx : isContinuationByte x = false) :
    g_utf8_validate (b :: c1 :: x :: t) = false := by
  rw [g_utf8_validate_unfold, if_neg hb]
  have h3 : utf8_three b c1 x = false := by simp [utf8_three, hx]
  simp only [h2, h3]
  cases t with
  | nil => rfl
  | cons c3 rest3 =>
    have h4 : utf8_four b c1 x c3 = false := by simp [utf8_four, hx]
    simp only [h4]
    rfl

/-- Three bytes that start no two- or three-byte character, followed by a
byte that is no continuation byte, are not valid. -/
theorem g_utf8_validate_fourth (b c1 c2 x : Char) (t : List Char) (hb : ¬ b.toNat < 128)
    (h2 : utf8_two b c1 = false) (h3 : utf8_three b c1 c2 = false)
    (hx : isContinuationByte x = false) :
    g_utf8_validate (b :: c1 :: c2 :: x :: t) = false := by
  rw [g_utf8_validate_unfold, if_neg hb]
  have h4 : utf8_four b c1 c2 x = false := by simp [utf8_four, hx]
  simp only [h2, h3, h4]
  rfl

/-- The empty value is escaped as the empty string. -/
theorem parse_string_as_value_nil (lead : Bool) :
    g_key_file_parse_string_as_value lead [] = [] := by
  unfold g_key_file_parse_string_as_value
  rfl

/-- How an escaped value starts, for UTF-8: a continuation byte is kept, and
what stands for another byte is no continuation byte. -/
theorem parse_string_as_value_utf8 (lead : Bool) (c : Char) (rest : List Char) :
    (isContinuationByte c = true →
        ∃ lead1, g_key_file_parse_string_as_value lead (c :: rest)
          = c :: g_key_file_parse_string_as_value lead1 rest)
      ∧ (isContinuationByte c = false →
        ∃ x t, g_key_file_parse_string_as_value lead (c :: rest) = x :: t
          ∧ isContinuationByte x = false) := by
  rcases parse_string_as_value_cons lead c rest with
    ⟨e, lead1, -, hc, heq⟩ | ⟨lead1, -, -, -, -, heq⟩
  · have hnc : isContinuationByte c = false := by
      rcases hc with rfl | rfl | rfl | rfl | rfl <;> decide
    constructor
    · intro h; rw [hnc] at h; exact absurd h (by decide)
    · intro _; exact ⟨BACKSLASH, _, heq, by decide⟩
  · constructor
    · intro _; exact ⟨lead1, heq⟩
    · intro h; exact ⟨c, _, heq, h⟩

/-- Escaping a value does not change whether it is valid UTF-8. -/
theorem g_utf8_validate_parse_string_as_value (n : Nat) :
    ∀ (v : List Char) (lead : Bool), v.length ≤ n →
      g_utf8_validate (g_key_file_parse_string_as_value lead v) = g_utf8_validate v := by
  induction n with
  | zero =>
    intro v lead h
    have : v = [] := List.length_eq_zero.1 (Nat.le_zero.1 h)
    subst this
    rfl
  | succ n ih =>
    intro v lead hlen
    cases v with
    | nil => rfl
    | cons b rest =>
      have hrest : rest.length ≤ n := Nat.le_of_succ_le_succ hlen
      rcases parse_string_as_value_cons lead b rest with
        ⟨e, lead1, he, hb, heq⟩ | ⟨lead1, -, -, -, -, heq⟩
      · have hb1 : b.toNat < 128 := by
          rcases hb with rfl | rfl | rfl | rfl | rfl <;> decide
        have he1 : e.toNat < 128 := by
          rcases he with rfl | rfl | rfl | rfl | rfl <;> decide
        rw [heq, g_utf8_validate_ascii _ _ (by decide), g_utf8_validate_ascii _ _ he1,
          g_utf8_validate_ascii _ _ hb1]
        exact ih rest lead1 hrest
      · rw [heq]
        by_cases hb : b.toNat < 128
        · rw [g_utf8_validate_ascii _ _ hb, g_utf8_validate_ascii _ _ hb]
          exact ih rest lead1 hrest
        · cases rest with
          | nil => rfl
          | cons c1 rest1 =>
            have hrest1 : rest1.length ≤ n := Nat.le_of_succ_le hrest
            by_cases hc1 : isContinuationByte c1 = true
            · obtain ⟨l1, e1⟩ := (parse_string_as_value_utf8 lead1 c1 rest1).1 hc1
              rw [e1]
              by_cases h2 : utf8_two b c1 = true
              · rw [g_utf8_validate_unfold, if_neg hb, g_utf8_validate_unfold b, if_neg hb]
                simp only [h2, if_true]
                exact ih rest1 l1 hrest1
              · have h2f : utf8_two b c1 = false := by simpa using h2
                cases rest1 with
                | nil => rw [parse_string_as_value_nil]
                | cons c2 rest2 =>
                  have hrest2 : rest2.length ≤ n := Nat.le_of_succ_le hrest1
                  by_cases hc2 : isContinuationByte c2 = true
                  · obtain ⟨l2, e2⟩ := (parse_string_as_value_utf8 l1 c2 rest2).1 hc2
                    rw [e2]
                    by_cases h3 : utf8_three b c1 c2 = true
                    · rw [g_utf8_validate_unfold, if_neg hb, g_utf8_validate_unfold b,
                        if_neg hb]
                      simp only [h2f, h3, if_true]
                      exact ih rest2 l2 hrest2
                    · have h3f : utf8_three b c1 c2 = false := by simpa using h3
                      cases rest2 with
                      | nil => rw [parse_string_as_value_nil]
                      | cons c3 rest3 =>
                        have hrest3 : rest3.length ≤ n := Nat.le_of_succ_le hrest2
                        by_cases hc3 : isContinuationByte c3 = true
                        · obtain ⟨l3, e3⟩ :=
                            (parse_string_as_value_utf8 l2 c3 rest3).1 hc3
                          rw [e3, g_utf8_validate_unfold, if_neg hb,
                            g_utf8_validate_unfold b, if_neg hb]
                          simp only [h2f, h3f]
                          by_cases h4 : utf8_four b c1 c2 c3 = true
                          · simp only [h4, if_true]
                            exact ih rest3 l3 hrest3
                          · have h4f : utf8_four b c1 c2 c3 = false := by simpa using h4
                            simp only [h4f]
                            rfl
                        · have hc3f : isContinuationByte c3 = false := by simpa using hc3
                          obtain ⟨x, t, e3, hx⟩ :=
                            (parse_string_as_value_utf8 l2 c3 rest3).2 hc3f
                          rw [e3, g_utf8_validate_fourth b c1 c2 x t hb h2f h3f hx,
                            g_utf8_validate_fourth b c1 c2 c3 rest3 hb h2f h3f hc3f]
                  · have hc2f : isContinuationByte c2 = false := by simpa using hc2
                    obtain ⟨x, t, e2, hx⟩ := (parse_string_as_value_utf8 l1 c2 rest2).2 hc2f
                    rw [e2, g_utf8_validate_third b c1 x t hb h2f hx,
                      g_utf8_validate_third b c1 c2 rest2 hb h2f hc2f]
            · have hc1f : isContinuationByte c1 = false := by simpa using hc1
              obtain ⟨x, t, e1, hx⟩ := (parse_string_as_value_utf8 lead1 c1 rest1).2 hc1f
              rw [e1, g_utf8_validate_second b x t hb hx,
                g_utf8_validate_second b c1 rest1 hb hc1f]

/-! ## Reading the lines of a snapshot -/

/-- One byte of `g_key_file_parse_data`. -/
theorem g_key_file_parse_data_cons (env : KeyFileEnv) (kf : GKeyFile) (buffer : List Char)
    (c : Char) (rest : List Char) :
    g_key_file_parse_data env kf buffer (c :: rest)
      = if c = LF then
          if (if buffer.getLast? = some CR then buffer.dropLast else buffer) = [] then
            g_key_file_parse_data env kf [] rest
          else
            match g_key_file_parse_line env kf
                (if buffer.getLast? = some CR then buffer.dropLast else buffer) with
            | Except.ok kf1 => g_key_file_parse_data env kf1 [] rest
            | Except.error e => Except.error e
        else g_key_file_parse_data env kf (buffer ++ [c]) rest := by
  conv_lhs => unfold g_key_file_parse_data

/-- The bytes of a line up to its line feed are collected in the buffer. -/
theorem g_key_file_parse_data_line (env : KeyFileEnv) (kf : GKeyFile) (line rest : List Char)
    (hl : ∀ c ∈ line, c ≠ LF) :
    ∀ buffer, g_key_file_parse_data env kf buffer (line ++ LF :: rest)
      = g_key_file_parse_data env kf (buffer ++ line) (LF :: rest) := by
  induction line with
  | nil => intro buffer; simp
  | cons c t ih =>
    intro buffer
    rw [List.cons_append, g_key_file_parse_data_cons,
      if_neg (hl c (List.mem_cons_self _ _)),
      ih (fun x hx => hl x (List.mem_cons_of_mem _ hx))]
    simp

/-- A line that is not empty, holds no line feed and does not end with a
carriage return is parsed as it is, and the parser goes on after its line
feed. -/
theorem g_key_file_parse_data_full_line (env : KeyFileEnv) (kf : GKeyFile)
    (line rest : List Char) (hl : ∀ c ∈ line, c ≠ LF) (hne : line ≠ [])
    (hcr : line.getLast? ≠ some CR) :
    g_key_file_parse_data env kf [] (line ++ LF :: rest)
      = match g_key_file_parse_line env kf line with
        | Except.ok kf1 => g_key_file_parse_data env kf1 [] rest
        | Except.error e => Except.error e := by
  rw [g_key_file_parse_data_line env kf line rest hl, List.nil_append,
    g_key_file_parse_data_cons, if_pos rfl, if_neg hcr, if_neg hne]

/-- A group name GLib accepts holds no closing bracket. -/
theorem is_group_name_no_bracket (name : List Char)
    (h : g_key_file_is_group_name name = true) : ∀ c ∈ name, (c != ']') = true := by
  intro c hc
  simp only [g_key_file_is_group_name, Bool.and_eq_true, List.all_eq_true] at h
  exact (h.2 c hc).1.1

/-- The line `[section]` of a snapshot opens the section. -/
theorem g_key_file_parse_line_header (env : KeyFileEnv) (sec : List Char)
    (hsec : g_key_file_is_group_name sec = true) :
    g_key_file_parse_line env ⟨[], none⟩ ('[' :: sec ++ [']'])
      = Except.ok ⟨[(sec, [])], some sec⟩ := by
  have hnb := is_group_name_no_bracket sec hsec
  have hd : (sec ++ [']']).dropWhile (fun x => x != ']') = [']'] := by
    rw [List.dropWhile_append_of_pos hnb]; rfl
  have ht : (sec ++ [']']).takeWhile (fun x => x != ']') = sec := by
    rw [List.takeWhile_append_of_pos hnb]; simp
  have hg : g_key_file_line_is_group ('[' :: sec ++ [']']) = true := by
    simp only [g_key_file_line_is_group, List.cons_append, if_true, hd]
    rfl
  unfold g_key_file_parse_line
  have hls : ('[' :: sec ++ [']']).dropWhile g_ascii_isspace = '[' :: sec ++ [']'] := by
    rw [List.cons_append, List.dropWhile_cons_of_neg (by decide)]
  simp only [hls, hg, if_true]
  rw [if_neg (by simp)]
  unfold g_key_file_parse_group
  simp only [List.cons_append, List.drop_succ_cons, List.drop_zero, ht, hsec, if_true]
  rfl

/-- A key a snapshot keeps is a key name for GLib, whatever the
environment. -/
theorem is_key_name_of_snapshotKey (env : KeyFileEnv) (k : List Char) (hk : SnapshotKey k) :
    g_key_file_is_key_name env k = true := by
  obtain ⟨hne, hall, hhead, hlast, -⟩ := hk
  have ht : k.takeWhile isKeyNameByte = k :=
    List.takeWhile_eq_self_iff.2 (fun c hc => (hall c hc).1)
  have hd : k.dropWhile isKeyNameByte = [] :=
    List.dropWhile_eq_nil_iff.2 (fun c hc => (hall c hc).1)
  unfold g_key_file_is_key_name
  simp only [ht, hd, hne, if_false]
  have h1 : ¬ (k.head? = some ' ') := fun h => absurd (hhead ' ' h).1 (by decide)
  have h2 : ¬ (k.getLast? = some ' ') := fun h => absurd (hlast ' ' h) (by decide)
  simp [h1, h2]

/-- A key a snapshot keeps has no locale. -/
theorem key_get_locale_of_snapshotKey (k : List Char) (hk : SnapshotKey k) :
    key_get_locale k = none := by
  have h : k.contains '[' = false := by
    rw [Bool.eq_false_iff]
    intro hc
    have hm : '[' ∈ k := by simpa using hc
    exact absurd (hk.2.1 _ hm).1 (by decide)
  unfold key_get_locale
  rw [h]
  rfl

/-- The line `key=value` of a snapshot adds the pair to the section. -/
theorem g_key_file_parse_line_pair (env : KeyFileEnv) (sec : List Char) (ps : KeyValuePairs)
    (k ev : List Char) (hk : SnapshotKey k)
    (hev : ∀ c, ev.head? = some c → g_ascii_isspace c = false) :
    g_key_file_parse_line env ⟨[(sec, ps)], some sec⟩ (k ++ '=' :: ev)
      = Except.ok ⟨[(sec, ps ++ [(k, ev)])], some sec⟩ := by
  have hkn := is_key_name_of_snapshotKey env k hk
  have hloc := key_get_locale_of_snapshotKey k hk
  obtain ⟨hne, hall, hhead, hlast, henc⟩ := hk
  obtain ⟨a, r, rfl⟩ := List.exists_cons_of_ne_nil hne
  have ha := hhead a rfl
  have hab : isKeyNameByte a = true := (hall a (List.mem_cons_self _ _)).1
  have hne_eq : ∀ c ∈ a :: r, (c != '=') = true := by
    intro c hc
    have := (hall c hc).1
    simp only [isKeyNameByte, Bool.and_eq_true] at this
    exact this.1.1
  have hls : ((a :: r) ++ '=' :: ev).dropWhile g_ascii_isspace = (a :: r) ++ '=' :: ev := by
    rw [List.cons_append, List.dropWhile_cons_of_neg (by simp [ha.1])]
  have hgroup : g_key_file_line_is_group ((a :: r) ++ '=' :: ev) = false := by
    have : a ≠ '[' := by
      rintro rfl; exact absurd hab (by decide)
    simp [g_key_file_line_is_group, this]
  have hkv : g_key_file_line_is_key_value_pair ((a :: r) ++ '=' :: ev) = true := by
    have : a ≠ '=' := by
      rintro rfl; exact absurd hab (by decide)
    simp [g_key_file_line_is_key_value_pair, this]
  have htake : ((a :: r) ++ '=' :: ev).takeWhile (fun x => x != '=') = a :: r := by
    rw [List.takeWhile_append_of_pos hne_eq, List.takeWhile_cons_of_neg (by simp)]
    simp
  have hdrop : ((a :: r) ++ '=' :: ev).dropWhile (fun x => x != '=') = '=' :: ev := by
    rw [List.dropWhile_append_of_pos hne_eq, List.dropWhile_cons_of_neg (by simp)]
  have hr : (a :: r).rdropWhile g_ascii_isspace = a :: r := by
    rw [List.rdropWhile_eq_self_iff]
    intro hl
    have := hlast _ (List.getLast?_eq_getLast _ hl)
    simp [this]
  have hv : ev.dropWhile g_ascii_isspace = ev := by
    cases ev with
    | nil => rfl
    | cons c t => exact List.dropWhile_cons_of_neg (by simp [hev c rfl])
  have henc1 : ((a :: r) == "Encoding".toList) = false := by
    rw [Bool.eq_false_iff]
    intro h
    exact henc (by simpa using h)
  unfold g_key_file_parse_line
  simp only [hls, hgroup, hkv, if_true]
  rw [if_neg (by simp [ha.2]), if_neg (by simp)]
  unfold g_key_file_parse_key_value_pair
  simp only [htake, hdrop, hr, List.drop_succ_cons, List.drop_zero, hv, hkn, henc1, hloc,
    Bool.not_true, Bool.and_false, Bool.false_and, if_false]
  simp [g_key_file_add_key_value_pair]

/-! ## Writing and reading a snapshot -/

/-- While the keys are key names for GLib and differ from each other and
from the keys already set, `g_key_file_set_string` adds one pair for each
entry, in the order of the entries. -/
theorem set_string_foldl (env : KeyFileEnv) (sec : List Char)
    (hsec : g_key_file_is_group_name sec = true) (db : Store) :
    (∀ p ∈ db, g_key_file_is_key_name env p.1 = true) → (db.map Prod.fst).Nodup →
    ∀ acc : KeyValuePairs, (∀ p ∈ db, ∀ q ∈ acc, q.1 ≠ p.1) →
      db.foldl (fun pairs p => g_key_file_set_string env sec pairs p.1 p.2) acc
        = acc ++ db.map (fun p => (p.1, g_key_file_parse_string_as_value true p.2)) := by
  induction db with
  | nil => intro _ _ acc _; simp
  | cons p rest ih =>
    intro hkeys hnd acc hacc
    have hp := hkeys p (List.mem_cons_self _ _)
    have hany : acc.any (fun q => q.1 == p.1) = false := by
      rw [Bool.eq_false_iff]
      intro h
      obtain ⟨q, hq, hqe⟩ := List.any_eq_true.1 h
      exact hacc p (List.mem_cons_self _ _) q hq (by simpa using hqe)
    have hstep : g_key_file_set_string env sec acc p.1 p.2
        = acc ++ [(p.1, g_key_file_parse_string_as_value true p.2)] := by
      unfold g_key_file_set_string
      simp only [hsec, hp, Bool.and_self, if_true, hany]
      rfl
    rw [List.foldl_cons, hstep]
    rw [List.map_cons, List.nodup_cons] at hnd
    rw [ih (fun q hq => hkeys q (List.mem_cons_of_mem _ hq)) hnd.2]
    · simp
    · intro p1 hp1 q hq
      rcases List.mem_append.1 hq with hq | hq
      · exact hacc p1 (List.mem_cons_of_mem _ hp1) q hq
      · simp only [List.mem_singleton] at hq
        subst hq
        intro he
        exact hnd.1 (by rw [he]; exact List.mem_map_of_mem _ hp1)

/-- What is found under a key after the loop of `db_load_from_file`: the
value `get` gives for it when the key is among the keys, else what was there
before. -/
theorem load_foldl_lookup (get : List Char → Option (List Char)) (keys : List (List Char)) :
    ∀ (acc : Store) (key1 : List Char),
      db_lookup (keys.foldl (fun db1 key =>
          match get key with
          | some val => (db_insert db1 key val).2
          | none => db1) acc) key1
        = match (if key1 ∈ keys then get key1 else none) with
          | some v => some v
          | none => db_lookup acc key1 := by
  induction keys with
  | nil => intro acc key1; simp
  | cons k ks ih =>
    intro acc key1
    rw [List.foldl_cons, ih]
    by_cases hm : key1 ∈ ks
    · have hm1 : key1 ∈ k :: ks := List.mem_cons_of_mem _ hm
      simp only [hm, hm1, if_true]
      cases hg : get key1 with
      | some v => rfl
      | none =>
        simp only
        cases hk : get k with
        | none => rfl
        | some val =>
          simp only
          rw [db_lookup_insert]
          by_cases he : key1 = k
          · rw [he, hk] at hg; exact absurd hg (by simp)
          · rw [if_neg he]
    · simp only [hm, if_false]
      by_cases he : key1 = k
      · subst he
        simp only [List.mem_cons, true_or, if_true]
        cases hk : get key1 with
        | none => rfl
        | some val =>
          simp only
          rw [db_lookup_insert, if_pos rfl]
      · have hm1 : ¬ key1 ∈ k :: ks := by
          simp only [List.mem_cons, not_or]; exact ⟨he, hm⟩
        simp only [hm1, if_false]
        cases hk : get k with
        | none => rfl
        | some val =>
          simp only
          rw [db_lookup_insert, if_neg he]

/-- A key that is found is among the keys of the store, with its value. -/
theorem db_lookup_mem (db : Store) (key v : List Char) (h : db_lookup db key = some v) :
    (key, v) ∈ db := by
  induction db with
  | nil => simp [db_lookup] at h
  | cons p rest ih =>
    obtain ⟨k, w⟩ := p
    by_cases hk : k = key
    · subst hk
      simp only [db_lookup, if_true, Option.some.injEq] at h
      subst h
      exact List.mem_cons_self _ _
    · simp only [db_lookup, hk, if_false] at h
      exact List.mem_cons_of_mem _ (ih h)

/-- A key that is not among the keys of the store is not found. -/
theorem db_lookup_of_not_mem (db : Store) (key : List Char)
    (h : key ∉ db.map Prod.fst) : db_lookup db key = none := by
  induction db with
  | nil => rfl
  | cons p rest ih =>
    obtain ⟨k, w⟩ := p
    simp only [List.map_cons, List.mem_cons, not_or] at h
    have hk : ¬ k = key := fun e => h.1 e.symm
    simp only [db_lookup, hk, if_false]
    exact ih h.2

/-- With keys that differ from each other, the last pair of the key file
under a key is the escaped form of what the store holds under it. -/
theorem find_last_pair (db : Store) (key : List Char) (hnd : (db.map Prod.fst).Nodup) :
    (((db.map (fun p => (p.1, g_key_file_parse_string_as_value true p.2))).reverse.find?
        (fun p => p.1 == key)).map Prod.snd)
      = (db_lookup db key).map (g_key_file_parse_string_as_value true) := by
  induction db with
  | nil => rfl
  | cons p rest ih =>
    obtain ⟨k, w⟩ := p
    rw [List.map_cons, List.nodup_cons] at hnd
    rw [List.map_cons, List.reverse_cons, List.find?_append]
    by_cases hk : k = key
    · subst hk
      have hnone : db_lookup rest k = none := db_lookup_of_not_mem rest k hnd.1
      have h1 := ih hnd.2
      rw [hnone] at h1
      simp only [Option.map_none', Option.map_eq_none'] at h1
      rw [h1]
      simp [db_lookup]
    · have h1 := ih hnd.2
      simp only [db_lookup, hk, if_false]
      rw [← h1]
      cases hf : (List.map (fun p => (p.1, g_key_file_parse_string_as_value true p.2))
          rest).reverse.find? (fun p => p.1 == key) with
      | some q => rfl
      | none => simp [hk]

/-- The lines of a snapshot after its header are read back as the pairs
they were written from. -/
theorem g_key_file_parse_data_pairs (env : KeyFileEnv) (sec : List Char) (db : Store) :
    (∀ p ∈ db, SnapshotKey p.1 ∧ SnapshotValue p.2) →
    ∀ ps : KeyValuePairs,
      g_key_file_parse_data env ⟨[(sec, ps)], some sec⟩ []
          ((db.map (fun p => (p.1, g_key_file_parse_string_as_value true p.2))).map
            (fun p => p.1 ++ '=' :: p.2 ++ [LF])).flatten
        = Except.ok ⟨[(sec, ps ++ db.map
            (fun p => (p.1, g_key_file_parse_string_as_value true p.2)))], some sec⟩ := by
  induction db with
  | nil =>
    intro _ ps
    simp [g_key_file_parse_data]
  | cons p rest ih =>
    intro hdb ps
    obtain ⟨hk, hv⟩ := hdb p (List.mem_cons_self _ _)
    have hnl := parse_string_as_value_no_newline true p.2
    have hline : ∀ c ∈ p.1 ++ '=' :: g_key_file_parse_string_as_value true p.2, c ≠ LF := by
      intro c hc
      rcases List.mem_append.1 hc with hc | hc
      · exact (hk.2.1 c hc).2
      · rcases List.mem_cons.1 hc with rfl | hc
        · decide
        · exact (hnl c hc).1
    have hcr : (p.1 ++ '=' :: g_key_file_parse_string_as_value true p.2).getLast?
        ≠ some CR := by
      rw [List.getLast?_append_of_ne_nil _ (List.cons_ne_nil _ _)]
      intro h
      have hm : CR ∈ '=' :: g_key_file_parse_string_as_value true p.2 :=
        List.mem_of_getLast?_eq_some h
      rcases List.mem_cons.1 hm with h1 | h1
      · exact absurd h1 (by decide)
      · exact (hnl CR h1).2 rfl
    have e : ((List.map (fun p => (p.1, g_key_file_parse_string_as_value true p.2))
          (p :: rest)).map (fun p => p.1 ++ '=' :: p.2 ++ [LF])).flatten
        = (p.1 ++ '=' :: g_key_file_parse_string_as_value true p.2)
            ++ LF :: ((List.map (fun p => (p.1, g_key_file_parse_string_as_value true p.2))
              rest).map (fun p => p.1 ++ '=' :: p.2 ++ [LF])).flatten := by
      simp
    rw [e, g_key_file_parse_data_full_line env _ _ _ hline (by simp) hcr,
      g_key_file_parse_line_pair env sec ps p.1 _ hk
        (parse_string_as_value_head p.2 hv.2)]
    simp only
    rw [ih (fun q hq => hdb q (List.mem_cons_of_mem _ hq))]
    simp

/-- Loading the snapshot of a store whose keys and values the key file
keeps gives the key file of its escaped pairs. -/
theorem g_key_file_load_saved (cfg : Config) (env : KeyFileEnv) (db : Store)
    (hsec : g_key_file_is_group_name cfg.UDB_DB_SECTION = true)
    (hnd : (db.map Prod.fst).Nodup)
    (hdb : ∀ p ∈ db, SnapshotKey p.1 ∧ SnapshotValue p.2) (hne : db ≠ []) :
    g_key_file_load_from_file env (SnapshotFile.regular (db_save_to_file cfg env db))
      = Except.ok ⟨[(cfg.UDB_DB_SECTION,
          db.map (fun p => (p.1, g_key_file_parse_string_as_value true p.2)))],
          some cfg.UDB_DB_SECTION⟩ := by
  have hsave : db.foldl
      (fun pairs p => g_key_file_set_string env cfg.UDB_DB_SECTION pairs p.1 p.2) []
      = db.map (fun p => (p.1, g_key_file_parse_string_as_value true p.2)) := by
    rw [set_string_foldl env _ hsec db
      (fun p hp => is_key_name_of_snapshotKey env p.1 (hdb p hp).1) hnd []
      (fun _ _ q hq => absurd hq (List.not_mem_nil q))]
    simp
  have hpne : db.map (fun p => (p.1, g_key_file_parse_string_as_value true p.2)) ≠ [] := by
    simpa using hne
  have hhead : ∀ c ∈ '[' :: cfg.UDB_DB_SECTION ++ [']'], c ≠ LF := by
    intro c hc
    simp only [List.cons_append, List.mem_cons, List.mem_append, List.mem_singleton,
      List.not_mem_nil, or_false] at hc
    rcases hc with rfl | hc | rfl
    · decide
    · simp only [g_key_file_is_group_name, Bool.and_eq_true, List.all_eq_true] at hsec
      have := (hsec.2 c hc).2
      rintro rfl
      exact absurd this (by decide)
    · decide
  unfold db_save_to_file g_key_file_to_data g_key_file_load_from_file
  rw [hsave, if_neg hpne]
  have e : '[' :: cfg.UDB_DB_SECTION ++ [']', LF]
        ++ ((db.map (fun p => (p.1, g_key_file_parse_string_as_value true p.2))).map
            (fun p => p.1 ++ '=' :: p.2 ++ [LF])).flatten
      = ('[' :: cfg.UDB_DB_SECTION ++ [']'])
        ++ LF :: ((db.map (fun p => (p.1, g_key_file_parse_string_as_value true p.2))).map
            (fun p => p.1 ++ '=' :: p.2 ++ [LF])).flatten := by
    simp
  simp only
  have hlast : ('[' :: cfg.UDB_DB_SECTION ++ [']']).getLast? ≠ some CR := by
    have e1 : '[' :: cfg.UDB_DB_SECTION ++ [']'] = ('[' :: cfg.UDB_DB_SECTION) ++ [']'] := rfl
    rw [e1, List.getLast?_concat]
    decide
  rw [e, g_key_file_parse_data_full_line env _ _ _ hhead (by simp) hlast,
    g_key_file_parse_line_header env _ hsec]
  simp only
  rw [g_key_file_parse_data_pairs env _ db hdb []]
  simp

/-- C4 (amended): for every store whose keys differ from each other (as in
a hash table), whose keys are not empty, hold no `=`, `[`, `]` or line feed,
start with neither white space nor `#`, do not end with white space and are
not the word `Encoding`, and whose values are valid UTF-8 that does not start
with a form feed (they may hold control characters, quotes, backslashes and
line breaks), loading with `db_load_from_file` the file `db_save_to_file`
wrote gives a store that holds the same pairs: every key is found with the
same value, or not found, as before.  `UDB_DB_SECTION` is taken to be a group
name GLib accepts. -/
theorem C4_snapshot_roundtrip (cfg : Config) (env : KeyFileEnv) (db db0 : Store)
    (hsec : g_key_file_is_group_name cfg.UDB_DB_SECTION = true)
    (hnd : (db.map Prod.fst).Nodup)
    (hdb : ∀ p ∈ db, SnapshotKey p.1 ∧ SnapshotValue p.2) (key : List Char) :
    db_lookup (db_load_from_file cfg env
        (SnapshotFile.regular (db_save_to_file cfg env db)) db0).1 key
      = db_lookup db key := by
  by_cases hne : db = []
  · subst hne
    rfl
  · unfold db_load_from_file
    rw [g_key_file_load_saved cfg env db hsec hnd hdb hne]
    have hkeys : g_key_file_get_keys
        ⟨[(cfg.UDB_DB_SECTION,
          db.map (fun p => (p.1, g_key_file_parse_string_as_value true p.2)))],
          some cfg.UDB_DB_SECTION⟩ cfg.UDB_DB_SECTION = some (db.map Prod.fst) := by
      simp [g_key_file_get_keys, List.find?]
    simp only [hkeys]
    rw [load_foldl_lookup]
    have hget : ∀ k, g_key_file_get_string
        ⟨[(cfg.UDB_DB_SECTION,
          db.map (fun p => (p.1, g_key_file_parse_string_as_value true p.2)))],
          some cfg.UDB_DB_SECTION⟩ cfg.UDB_DB_SECTION k = db_lookup db k := by
      intro k
      have hval : g_key_file_get_value
          ⟨[(cfg.UDB_DB_SECTION,
            db.map (fun p => (p.1, g_key_file_parse_string_as_value true p.2)))],
            some cfg.UDB_DB_SECTION⟩ cfg.UDB_DB_SECTION k
          = (db_lookup db k).map (g_key_file_parse_string_as_value true) := by
        simp only [g_key_file_get_value, List.find?, beq_self_eq_true]
        exact find_last_pair db k hnd
      unfold g_key_file_get_string
      rw [hval]
      cases hl : db_lookup db k with
      | none => rfl
      | some v =>
        have hv := (hdb (k, v) (db_lookup_mem db k v hl)).2
        simp only [Option.map_some']
        rw [g_utf8_validate_parse_string_as_value v.length v true (Nat.le_refl _), hv.1,
          if_pos rfl, parse_value_as_string_parse_string_as_value]
    rw [hget]
    by_cases hm : key ∈ db.map Prod.fst
    · rw [if_pos hm]
      cases db_lookup db key <;> rfl
    · rw [if_neg hm, db_lookup_of_not_mem db key hm]
      rfl

/-- C4 (amended) at a store with two entries, one of which has a blank in
its key and blanks, a line feed, double quotes, a backslash, a tab and a
carriage return in its value: after saving and loading, the value is found
as it was. -/
theorem C4_snapshot_roundtrip_witness :
    db_lookup (db_load_from_file sampleConfig sampleEnv
        (SnapshotFile.regular (db_save_to_file sampleConfig sampleEnv
          [("name".toList, "Alice".toList),
            ("k 1".toList, [' ', 'a', LF, DQUOTE, 'b', DQUOTE, BACKSLASH, TAB, 'c', CR, ' '])]))
        []).1 "k 1".toList
      = some [' ', 'a', LF, DQUOTE, 'b', DQUOTE, BACKSLASH, TAB, 'c', CR, ' '] :=
  C4_snapshot_roundtrip sampleConfig sampleEnv
    [("name".toList, "Alice".toList),
      ("k 1".toList, [' ', 'a', LF, DQUOTE, 'b', DQUOTE, BACKSLASH, TAB, 'c', CR, ' '])]
    [] (by decide) (by decide) (by decide) "k 1".toList

/-- C4, counterexample: under every configuration that admits a key of three
bytes, and whatever lies behind the line in memory, the line `SET 'a=b' v` is
answered `OK` and stores the value `v` under the key `a=b`;
`g_key_file_set_string` refuses that key name, so the file `db_save_to_file`
writes is empty, and the store `db_load_from_file` loads from it does not
hold the key. -/
theorem C4_counterexample :
    ¬ ∃ (cfg : Config) (env : KeyFileEnv) (after : List Char), 3 ≤ cfg.UDB_MAX_KEY_LENGTH
        ∧ db_lookup (db_load_from_file cfg env
            (SnapshotFile.regular (db_save_to_file cfg env
              (process_command_line cfg [] ("SET 'a=b' v".toList ++ NUL :: after)).2)) []).1
            "a=b".toList
          = db_lookup (process_command_line cfg [] ("SET 'a=b' v".toList ++ NUL :: after)).2
            "a=b".toList := by
  rintro ⟨cfg, env, after, h1, h2⟩
  have hk : KeyToken "'a=b'".toList "a=b".toList := ⟨by decide, Or.inr (by decide)⟩
  have hv : ValueToken "v".toList (GToken.G_TOKEN_IDENTIFIER "v".toList) :=
    ⟨by decide, by decide, by decide, Or.inl ⟨_, rfl⟩⟩
  have e0 : "SET 'a=b' v".toList ++ NUL :: after
      = "SET ".toList ++ "'a=b'".toList ++ " ".toList ++ "v".toList ++ NUL :: after := rfl
  have e1 : (process_command_line cfg [] ("SET 'a=b' v".toList ++ NUL :: after))
      = ("OK\r\n".toList, [("a=b".toList, "v".toList)]) := by
    rw [e0, process_set_value_line cfg [] _ "a=b".toList _ after _ hk h1 hv]
    rfl
  have e2 : db_save_to_file cfg env [("a=b".toList, "v".toList)] = [] := by
    have hk : g_key_file_is_key_name env "a=b".toList = false := rfl
    have hs : g_key_file_set_string env cfg.UDB_DB_SECTION [] "a=b".toList "v".toList
        = [] := by
      unfold g_key_file_set_string
      rw [hk, Bool.and_false]
      rfl
    unfold db_save_to_file
    rw [List.foldl_cons, List.foldl_nil]
    simp only
    rw [hs]
    rfl
  rw [e1] at h2
  simp only at h2
  rw [e2] at h2
  have e3 : db_lookup (db_load_from_file cfg env (SnapshotFile.regular []) []).1
      "a=b".toList = none := rfl
  have e4 : db_lookup [("a=b".toList, "v".toList)] "a=b".toList = some "v".toList := rfl
  rw [e3, e4] at h2
  exact absurd h2 (by simp)

end Udb
